import Mathlib

/-!
Verification of the health-check backend (`src/backend/main.py`) against its
specification.  The Python source is shallowly embedded below: pure string
processing is modelled over `List Char` with structural recursion, Python
floats are modelled by exact fractions (`Frac`, an integer numerator over a
natural denominator, interpreted in `ℚ` via `Frac.toRat`), Python dicts that
carry a fixed field set are modelled by structures with `Option` fields for
keys that may be absent, and the Aerospike key-value store is modelled by an
association list with upsert (`putAssoc`) / scan (`List.filter`) / remove
(`removeKey`) operations.  External collaborators (the `asadm` subprocess,
the Gemini oracle, JSON decoding of the oracle response, the tar/zip
decoders) are modelled as explicit parameters describing their outcome,
exactly at the boundary where the source calls them.
-/

namespace AsHealth

/-! ## Python-style string primitives (structural, kernel-computable)

Core `String` operations (`String.replace`, `String.trim`, ...) are defined
by well-founded recursion on byte positions and do not reduce in the kernel,
so the Python string operations used by the source are re-implemented here
over `List Char` by plain structural recursion. -/

/-- Whitespace for Python `str.strip` / `str.split()` (ASCII subset). -/
def pyIsSpace (c : Char) : Bool :=
  c = ' ' || c = '\t' || c = '\n' || c = '\r' || c = '\x0b' || c = '\x0c'

/-- List-level prefix test (Python `str.startswith`). -/
def isPrefixL : List Char → List Char → Bool
  | [], _ => true
  | _ :: _, [] => false
  | a :: as, b :: bs => a == b && isPrefixL as bs

/-- Substring occurrence (Python `in` on strings). -/
def containsL (pat : List Char) : List Char → Bool
  | [] => isPrefixL pat []
  | c :: rest => isPrefixL pat (c :: rest) || containsL pat rest

/-- Fuel-driven worker for `splitOnL`; fuel bounds the number of consumed
characters, so the recursion is structural. -/
def splitOnFuel (pat : List Char) : Nat → List Char → List Char → List (List Char)
  | 0, s, acc => [acc.reverse ++ s]
  | fuel + 1, s, acc =>
    match s with
    | [] => [acc.reverse]
    | c :: rest =>
      if isPrefixL pat s then
        acc.reverse :: splitOnFuel pat fuel (s.drop pat.length) []
      else
        splitOnFuel pat fuel rest (c :: acc)

/-- Python `str.split(sep)` for a non-empty separator (leftmost,
non-overlapping). -/
def splitOnL (pat s : List Char) : List (List Char) :=
  splitOnFuel pat s.length s []

/-- Join with a separator (used to model Python `str.replace`). -/
def joinL (sep : List Char) : List (List Char) → List Char
  | [] => []
  | [x] => x
  | x :: xs => x ++ sep ++ joinL sep xs

/-- Python `str.replace(pat, rep)` (replace every occurrence). -/
def pyReplace (s pat rep : String) : String :=
  String.mk (joinL rep.data (splitOnL pat.data s.data))

/-- Python `str.strip()` at list level. -/
def trimL (s : List Char) : List Char :=
  ((s.dropWhile pyIsSpace).reverse.dropWhile pyIsSpace).reverse

/-- Python `str.strip()`. -/
def pyStrip (s : String) : String := String.mk (trimL s.data)

/-- Python `str.lower()` (ASCII). -/
def pyLower (s : String) : String := String.mk (s.data.map Char.toLower)

/-- Python `str.upper()` (ASCII). -/
def pyUpper (s : String) : String := String.mk (s.data.map Char.toUpper)

/-- Python `str.startswith`. -/
def pyStartsWith (s pat : String) : Bool := isPrefixL pat.data s.data

/-- Python `pat in s` substring test. -/
def containsSub (s pat : String) : Bool := containsL pat.data s.data

/-- Python `s.split(sep)` returning strings. -/
def pySplitOn (s sep : String) : List String :=
  (splitOnL sep.data s.data).map String.mk

/-- Worker for whitespace splitting (Python `str.split()` with no
argument: runs of whitespace separate tokens, empties dropped). -/
def splitWsL : List Char → List Char → List (List Char)
  | [], acc => if acc.isEmpty then [] else [acc.reverse]
  | c :: rest, acc =>
    if pyIsSpace c then
      if acc.isEmpty then splitWsL rest [] else acc.reverse :: splitWsL rest []
    else splitWsL rest (c :: acc)

/-- Python `str.split()` (no argument). -/
def pySplitWs (s : String) : List String := (splitWsL s.data []).map String.mk

/-- Count occurrences of a character (Python `str.count` for 1-char arg). -/
def countChar (s : String) (c : Char) : Nat := (s.data.filter (· == c)).length

/-- Python `c in s` for a single character. -/
def containsChar (s : String) (c : Char) : Bool := s.data.any (· == c)

/-- Python `str.splitlines`-style line list via `split('\n')`, as the
source does `text.split('\n')`. -/
def pyLines (s : String) : List String := pySplitOn s "\n"

/-! ## Numbers

Python floats are modelled by exact fractions.  All numeric values flowing
through the pipeline originate from decimal literals, so an exact fraction
with an explicit (never normalised) numerator/denominator is a faithful,
kernel-computable stand-in; `Frac.toRat` interprets it in `ℚ` for the
specification-level statements. -/

structure Frac where
  num : ℤ
  den : ℕ
deriving DecidableEq, Repr

/-- Interpretation of a fraction in `ℚ`. -/
def Frac.toRat (f : Frac) : ℚ := (f.num : ℚ) / (f.den : ℚ)

def fOfNat (n : ℕ) : Frac := ⟨n, 1⟩

def fadd (a b : Frac) : Frac := ⟨a.num * b.den + b.num * a.den, a.den * b.den⟩

def fsub (a b : Frac) : Frac := ⟨a.num * b.den - b.num * a.den, a.den * b.den⟩

def fmul (a b : Frac) : Frac := ⟨a.num * b.num, a.den * b.den⟩

/-- Multiplicative inverse: keeps the denominator a natural number by moving
the sign to the numerator. -/
def finv (b : Frac) : Frac :=
  if b.num < 0 then ⟨-(b.den : ℤ), b.num.natAbs⟩ else ⟨(b.den : ℤ), b.num.natAbs⟩

def fdivF (a b : Frac) : Frac := fmul a (finv b)

/-- Strict comparison by cross-multiplication (valid for positive
denominators, which the pipeline maintains). -/
def flt (a b : Frac) : Bool := a.num * (b.den : ℤ) < b.num * (a.den : ℤ)

/-- Python `max(a, b)`. -/
def fmax (a b : Frac) : Frac := if flt a b then b else a

/-- Python `min(a, b)`. -/
def fmin (a b : Frac) : Frac := if flt a b then a else b

def fsum (l : List Frac) : Frac := l.foldl fadd (fOfNat 0)

/-- Digits of a decimal string to a natural number (callers guarantee the
characters are decimal digits). -/
def natOfDigitsL (l : List Char) : ℕ :=
  l.foldl (fun a c => a * 10 + (c.toNat - '0'.toNat)) 0

def natOfDigits (s : String) : ℕ := natOfDigitsL s.data

/-- Python `float(s)` for a string made only of decimal digits and dots
(the only shape the source ever feeds it, after its digit/dot filters):
defined exactly when the string has at least one digit and at most one
dot. -/
def pyFloatDigits (s : String) : Option Frac :=
  match pySplitOn s "." with
  | [a] => if a.isEmpty then none else some (fOfNat (natOfDigits a))
  | [a, b] =>
    if a.isEmpty && b.isEmpty then none
    else some ⟨natOfDigits a * 10 ^ b.length + natOfDigits b, 10 ^ b.length⟩
  | _ => none

/-- Python `int(s)`: optional surrounding whitespace, optional sign, then
decimal digits (numeric-literal underscores are not modelled). -/
def pyInt (s : String) : Option ℤ :=
  match (pyStrip s).data with
  | [] => none
  | '-' :: ds =>
    if !ds.isEmpty && ds.all Char.isDigit then some (-(natOfDigitsL ds : ℤ)) else none
  | '+' :: ds =>
    if !ds.isEmpty && ds.all Char.isDigit then some (natOfDigitsL ds : ℤ) else none
  | ds =>
    if ds.all Char.isDigit then some (natOfDigitsL ds : ℤ) else none

/-- Python `str.isdigit()` (ASCII digits). -/
def pyIsDigit (s : String) : Bool := !s.data.isEmpty && s.data.all Char.isDigit

/-- The digit-or-dot filter `''.join(c for c in s if c.isdigit() or c == '.')`
used by the source (commas are removed beforehand by the source, but the
filter drops them anyway). -/
def digitsAndDots (s : String) : String :=
  String.mk (s.data.filter (fun c => c.isDigit || c = '.'))

/-- Round half-to-even to an integer, as CPython float formatting does.
`rem2` is twice the remainder scaled by the denominator. -/
def froundHalfEven (f : Frac) : ℤ :=
  let fl := Int.fdiv f.num f.den
  let rem2 := 2 * (f.num - fl * (f.den : ℤ))
  if rem2 < (f.den : ℤ) then fl
  else if (f.den : ℤ) < rem2 then fl + 1
  else if fl % 2 = 0 then fl else fl + 1

/-- Left-pad a numeral with zeros. -/
def padZeros (s : String) (n : ℕ) : String :=
  String.mk (List.replicate (n - s.data.length) '0') ++ s

/-- Python `f"{x:.pf}"` fixed-point formatting (exact-fraction model of the
binary-float formatting used by the source; ties round to even). -/
def formatFixed (f : Frac) (prec : ℕ) : String :=
  let n := froundHalfEven ⟨f.num * (10 : ℤ) ^ prec, f.den⟩
  let sign := if n < 0 then "-" else ""
  let m := n.natAbs
  let base := (10 : ℕ) ^ prec
  if prec = 0 then sign ++ toString (m / base)
  else sign ++ toString (m / base) ++ "." ++ padZeros (toString (m % base)) prec

/-! ## Unit Normalizer — `HealthDataProcessor.normalize_to_gb`

The source parses a leading `[0-9.,]+` token, optional whitespace, and a
trailing `[A-Za-z]*` unit via `re.match`, converts to GB by powers of 1024,
and formats with magnitude-dependent precision.  Python's binary floats are
modelled by exact fractions; the float literals `0.01` etc. in the threshold
comparisons are modelled by the exact decimals they denote. -/

/-- The `re.match(r'([0-9.,]+)\s*([A-Za-z]*)', v)` prefix match: returns the
numeric group and the unit group, or `none` when the match fails (first
character is not a digit, dot or comma). -/
def sizeTokenL (cs : List Char) : Option (List Char × List Char) :=
  let num := cs.takeWhile (fun c => c.isDigit || c = '.' || c = ',')
  if num.isEmpty then none
  else
    let rest := (cs.drop num.length).dropWhile pyIsSpace
    some (num, rest.takeWhile Char.isAlpha)

/-- Precision selection of the source: 4 decimals below 0.01, 3 below 1,
2 below 10, 1 otherwise. -/
def precOf (g : Frac) : ℕ :=
  if flt g ⟨1, 100⟩ then 4
  else if flt g (fOfNat 1) then 3
  else if flt g (fOfNat 10) then 2
  else 1

/-- `HealthDataProcessor.normalize_to_gb`.  Empty / `N/A` / `Unknown` input
is returned as-is; otherwise the input is stripped, the leading number and
unit are parsed, the value is scaled to GB, and formatted; any parse
failure or unknown unit returns the stripped input (the source reassigns
`value_str = str(value_str).strip()` before those returns). -/
def normalize_to_gb (s : String) : String :=
  if s = "" ∨ s = "N/A" ∨ s = "Unknown" then s
  else
    let v := pyStrip s
    match sizeTokenL v.data with
    | none => v
    | some (numL, unitL) =>
      match pyFloatDigits (pyReplace (String.mk numL) "," "") with
      | none => v
      | some q =>
        let unit := pyUpper (String.mk unitL)
        let gb? : Option Frac :=
          if unit = "B" ∨ unit = "BYTES" then some (fdivF q (fOfNat (1024 ^ 3)))
          else if unit = "KB" ∨ unit = "K" then some (fdivF q (fOfNat (1024 ^ 2)))
          else if unit = "MB" ∨ unit = "M" then some (fdivF q (fOfNat 1024))
          else if unit = "GB" ∨ unit = "G" ∨ unit = "" then some q
          else if unit = "TB" ∨ unit = "T" then some (fmul q (fOfNat 1024))
          else if unit = "PB" ∨ unit = "P" then some (fmul q (fOfNat (1024 ^ 2)))
          else none
        match gb? with
        | none => v
        | some g => formatFixed g (precOf g) ++ " GB"

/-! ## Derived Metrics Engine — `HealthDataProcessor.calculate_derived_metrics`

A namespace dict is modelled with `Option` fields for the `clientWrites`
and `license` keys; the per-node arrays hold the `str(value)` renderings the
source filters through its digit/dot coercion. -/

structure ClientWritesRec where
  clientWriteSuccessPerNode : List String
  xdrClientWriteSuccessPerNode : List String
  clientWriteSuccess : Option ℤ := none
  xdrClientWriteSuccess : Option ℤ := none
  uniqueWritesPercent : Option String := none
  uniqueData : Option String := none
deriving DecidableEq, Repr

structure LicenseRec where
  usage : Option String
deriving DecidableEq, Repr

structure NamespaceRec where
  name : String
  clientWrites : Option ClientWritesRec
  license : Option LicenseRec
deriving DecidableEq, Repr

/-- `float(''.join(c for c in str(value).replace(',', '') if c.isdigit() or
c == '.'))` — `none` models the `ValueError` on a residue with no digit or
several dots. -/
def coerceWriteEntry (v : String) : Option Frac :=
  pyFloatDigits (digitsAndDots (pyReplace v "," ""))

/-- License-usage coercion: default `'0 GB'`, drop `GB` and commas, strip,
digit/dot filter, then `float`. -/
def coerceLicenseUsage (usage : Option String) : Option Frac :=
  pyFloatDigits (digitsAndDots (pyStrip (pyReplace (pyReplace (usage.getD "0 GB") "GB" "") "," "")))

/-- Python `int()` truncation toward zero. -/
def fTrunc (f : Frac) : ℤ := Int.tdiv f.num (f.den : ℤ)

/-- The unique-writes percentage of the source:
`max(0, min(100, (total - replicated) * 100 / total))` when `total > 0`,
else `0`. -/
def uniqueWritesPercentF (total repl : Frac) : Frac :=
  if flt (fOfNat 0) total then
    fmax (fOfNat 0) (fmin (fOfNat 100) (fdivF (fmul (fsub total repl) (fOfNat 100)) total))
  else fOfNat 0

/-- Per-namespace body of `calculate_derived_metrics`: namespaces lacking
the `clientWrites` or `license` key are skipped untouched; a coercion
failure anywhere (the inner `except (ValueError, TypeError)`) sets both
derived fields to `"N/A"`; otherwise the aggregated and derived fields are
attached. -/
def computeNamespaceMetrics (ns : NamespaceRec) : NamespaceRec :=
  match ns.clientWrites, ns.license with
  | some cw, some lic =>
    match cw.clientWriteSuccessPerNode.mapM coerceWriteEntry,
          cw.xdrClientWriteSuccessPerNode.mapM coerceWriteEntry,
          coerceLicenseUsage lic.usage with
    | some cs, some xs, some lq =>
      let total := fsum cs
      let repl := fsum xs
      let p := uniqueWritesPercentF total repl
      let ud := fmul lq (fdivF p (fOfNat 100))
      { ns with clientWrites := some { cw with
          clientWriteSuccess := some (fTrunc total),
          xdrClientWriteSuccess := some (fTrunc repl),
          uniqueWritesPercent := some (formatFixed p 2 ++ "%"),
          uniqueData := some (formatFixed ud 2 ++ " GB") } }
    | _, _, _ =>
      { ns with clientWrites := some { cw with
          uniqueWritesPercent := some "N/A", uniqueData := some "N/A" } }
  | _, _ => ns

/-- `calculate_derived_metrics` over the namespace list: the inner
`try/except` sits inside the `for` loop, so every namespace is processed
independently of its siblings. -/
def calculate_derived_metrics (nss : List NamespaceRec) : List NamespaceRec :=
  nss.map computeNamespaceMetrics

/-! ## Diagnostic Runner — `HealthDataProcessor.run_asadm_commands`

The subprocess launch is the external boundary: `exec` reports, per command
string, either the captured streams and exit code, or the exception raised
while launching (the source's `except Exception` branch). -/

inductive ExecOutcome where
  | ran (stdout stderr : String) (code : ℤ)
  | failedLaunch (msg : String)
deriving DecidableEq

structure CmdResult where
  stdout : String
  stderr : String
  return_code : ℤ
  success : Bool
deriving DecidableEq, Repr

/-- One iteration of the command loop: results are recorded as data in both
the normal and the exception branch (`return_code := -1`,
`stderr := str(e)`, `success := False`). -/
def runOneCommand (exec : String → ExecOutcome) (c : String) : CmdResult :=
  match exec c with
  | .ran out err code => ⟨out, err, code, code == 0⟩
  | .failedLaunch msg => ⟨"", msg, -1, false⟩

/-- Generic association-list lookup (models keyed dict access and the
Aerospike point `get`; `none` models the record-not-found exception). -/
def lookupKey {α : Type} : List (String × α) → String → Option α
  | [], _ => none
  | e :: t, k => if e.1 = k then some e.2 else lookupKey t k

/-- `run_asadm_commands`: iterates the command list, one entry per command,
keyed by the command string (the Python dict). -/
def run_asadm_commands (exec : String → ExecOutcome) (cmds : List String) :
    List (String × CmdResult) :=
  cmds.map (fun c => (c, runOneCommand exec c))

/-! ## Archive Resolver — `HealthDataProcessor.extract_collectinfo`

The tar/zip libraries are the external boundary: `tarDecodes` / `zipDecodes`
say whether `tarfile.open(..., 'r:*')` + `extractall` (resp. `zipfile`)
succeeds on this file; both attempts are deterministic, so a retry of the
same decoder has the same outcome. -/

structure ArchiveFile where
  hasExtension : Bool
  content : List ℕ
  tarDecodes : Bool
  zipDecodes : Bool
deriving DecidableEq

inductive ExtractMethod where
  | tarDirect | zipDirect | tarByMagic | zipByMagic
deriving DecidableEq, Repr

def gzipMagic : List ℕ := [0x1f, 0x8b]

/-- `b'ustar'` — five bytes, compared with `startswith` against the four
bytes the source reads. -/
def ustarMarker : List ℕ := [0x75, 0x73, 0x74, 0x61, 0x72]

def pkMarker : List ℕ := [0x50, 0x4b]

def extractionFailureMsg : String :=
  "Could not extract file. Tried tar, zip, and content detection."

/-- `extract_collectinfo`: method 1 tar, method 2 zip, method 3 (only for
extensionless files) magic-byte dispatch on the first 4 bytes; raises
(`ValueError`, the spec's `ExtractionError`) only if nothing succeeded. -/
def extract_collectinfo (f : ArchiveFile) : Except String ExtractMethod :=
  if f.tarDecodes then .ok .tarDirect
  else if f.zipDecodes then .ok .zipDirect
  else if !f.hasExtension then
    let magic := f.content.take 4
    if gzipMagic.isPrefixOf magic || ustarMarker.isPrefixOf magic then
      if f.tarDecodes then .ok .tarByMagic else .error extractionFailureMsg
    else if pkMarker.isPrefixOf magic then
      if f.zipDecodes then .ok .zipByMagic else .error extractionFailureMsg
    else .error extractionFailureMsg
  else .error extractionFailureMsg

/-! ## Structured Extractor — `parse_with_gemini` / `create_fallback_structure`

The Gemini call and the JSON decoding of its response are external
boundaries: `OracleOutcome` is what `model.generate_content(...).text`
produced (or the exception it raised), and `jsonDecodes` says whether
`json.loads` accepts the cleaned response.  The payload of a successful
JSON parse is abstracted to the cleaned response text; the claims under
verification concern only the failure paths, whose record contents are
modelled in full. -/

structure FallbackData where
  name : String
  version : String
  size : ℤ
  namespacesActive : ℤ
  passed : ℤ
  failed : ℤ
  skipped : ℤ
  issues : List String
  error : String
  raw_content : String
deriving DecidableEq, Repr

/-- `line.split('|')[-1].strip()` (on a line without `|` this is the whole
line, as in the source). -/
def lastPipeField (line : String) : String :=
  pyStrip ((pySplitOn line "|").getLast?.getD "")

/-- One line of the fallback extraction loop (the `elif` chain; the
`Total:`/`Passed:`/`Failed:` branch assigns `passed` first and keeps it
even when the subsequent `Failed:` parse raises, matching the single
`try` around both assignments). -/
def fallbackStep (d : FallbackData) (rawLine : String) : FallbackData :=
  let line := pyStrip rawLine
  if containsSub line "Cluster Name" then { d with name := lastPipeField line }
  else if containsSub line "Server Version" then { d with version := lastPipeField line }
  else if containsSub line "Cluster Size" then
    match pyInt (lastPipeField line) with
    | some n => { d with size := n }
    | none => d
  else if containsSub line "Namespaces Active" then
    match pyInt (lastPipeField line) with
    | some n => { d with namespacesActive := n }
    | none => d
  else if containsSub line "Total:" && containsSub line "Passed:" && containsSub line "Failed:" then
    let parts := pySplitWs line
    match parts.findIdx? (· == "Passed:") with
    | none => d
    | some i =>
      match parts[i + 1]? with
      | none => d
      | some ps =>
        match pyInt ps with
        | none => d
        | some p =>
          let d' := { d with passed := p }
          match parts.findIdx? (· == "Failed:") with
          | none => d'
          | some j =>
            match parts[j + 1]? with
            | none => d'
            | some fs =>
              match pyInt fs with
              | none => d'
              | some fv => { d' with failed := fv }
  else d

/-- `create_fallback_structure`: the deterministic fallback record, with the
source's initial values and the label-matching pass over the lines. -/
def create_fallback_structure (combined error_msg : String) : FallbackData :=
  (pyLines combined).foldl fallbackStep
    { name := "Unknown", version := "Unknown", size := 0, namespacesActive := 0,
      passed := 0, failed := 0, skipped := 0, issues := [],
      error := error_msg, raw_content := combined }

inductive OracleOutcome where
  | raises (msg : String)
  | returns (responseText : String)

inductive GeminiResult where
  | keyMissing (error raw_content : String)
  | aiParsed (payload raw_content : String)
  | fallback (d : FallbackData)
deriving DecidableEq, Repr

/-- Markdown code-fence stripping of the source. -/
def stripCodeFences (ai : String) : String :=
  if pyStartsWith ai "```json" then pyStrip (pyReplace (pyReplace ai "```json" "") "```" "")
  else if pyStartsWith ai "```" then pyStrip (pyReplace ai "```" "")
  else ai

/-- `parse_with_gemini`: unconfigured key returns the minimal error record
without calling the oracle or the fallback extractor; an oracle exception or
an empty/short response falls back with a `Gemini API error: ...` message;
a response `json.loads` rejects falls back with the raw response as the
error message; a parsed response is the AI path. -/
def parse_with_gemini (configured : Bool) (oracle : OracleOutcome)
    (jsonDecodes : String → Bool) (combined : String) : GeminiResult :=
  if !configured then
    .keyMissing "Gemini API key not configured" combined
  else
    match oracle with
    | .raises msg =>
      .fallback (create_fallback_structure combined ("Gemini API error: " ++ msg))
    | .returns t =>
      let ai := pyStrip t
      if ai = "" ∨ ai.length < 10 then
        .fallback (create_fallback_structure combined
          "Gemini API error: Gemini API returned empty response")
      else
        let cleaned := stripCodeFences ai
        if jsonDecodes cleaned then .aiParsed cleaned combined
        else .fallback (create_fallback_structure combined ai)

/-- Cluster name carried by a result, where modelled (the AI payload is
abstract, the key-missing record has no cluster-info fields at all). -/
def clusterNameOf : GeminiResult → Option String
  | .fallback d => some d.name
  | _ => none

def clusterSizeOf : GeminiResult → Option ℤ
  | .fallback d => some d.size
  | _ => none

def errorFieldOf : GeminiResult → Option String
  | .keyMissing e _ => some e
  | .fallback d => some d.error
  | .aiParsed _ _ => none

def rawContentOf : GeminiResult → String
  | .keyMissing _ r => r
  | .aiParsed _ r => r
  | .fallback d => d.raw_content

/-! ## Secondary parser — `HealthDataProcessor.parse_info_data`

Fixed-width pipe-delimited parsing of the `info dc` output.  The `try` body
is total once embedded, so the `except` envelope (which would set
`parse_error` and still carry `raw_content := text`) is unreachable; both
operational paths preserve the raw text. -/

inductive PyVal where
  | str (s : String)
  | int (n : ℤ)
deriving DecidableEq, Repr

structure DcNodeRec where
  node : String
  dc : String
  dc_type : String
  namespaces : String
  lag : String
  records_shipped : PyVal
  avg_latency_ms : PyVal
  status : String
deriving DecidableEq, Repr

structure DcInfo where
  timestamp : String
  nodes : List DcNodeRec
deriving DecidableEq, Repr

structure InfoParseResult where
  dc_info : Option DcInfo
  parse_error : Option String
  raw_content : String
deriving DecidableEq, Repr

/-- `re.search(r'\(([^)]+)\)', line)`: the leftmost `(` followed by at
least one non-`)` character and then `)`; returns the group. -/
def firstParenGroup : List Char → Option (List Char)
  | [] => none
  | c :: rest =>
    if c = '(' then
      let g := rest.takeWhile (· != ')')
      if g.isEmpty then firstParenGroup rest
      else if (rest.drop g.length).head? = some ')' then some g
      else firstParenGroup rest
    else firstParenGroup rest

structure InfoSt where
  timestamp : String
  nodes : List DcNodeRec
  in_header : Bool

/-- `if value.isdigit(): value = int(value)` opportunistic coercion. -/
def coerceDigitField (s : String) : PyVal :=
  if pyIsDigit s then .int (natOfDigits s) else .str s

/-- One line of the `parse_info_data` loop (check order as in the source;
the timestamp extraction does not `continue`, the later checks do). -/
def infoLineStep (st : InfoSt) (rawLine : String) : InfoSt :=
  let line := pyStrip rawLine
  if line = "" then st
  else
    let st1 :=
      if containsSub line "DC Information" && containsSub line "(" && containsSub line ")" then
        match firstParenGroup line.data with
        | some g => { st with timestamp := String.mk g }
        | none => st
      else st
    if containsSub line "Node|" && containsSub line "DC|" && containsSub line "DC Type|" then
      { st1 with in_header := true }
    else if pyStartsWith line "~" || pyStartsWith line "-" then st1
    else if st1.in_header ∧ 2 ≤ countChar line '|' ∧
        (pySplitOn line "|").all (fun p => pyStrip p == "") then st1
    else if st1.in_header ∧
        (containsSub line "Shipped" || containsSub line "Latency" || containsSub line "(ms)") then st1
    else if st1.in_header ∧ containsSub line "|" ∧ 7 ≤ countChar line '|' then
      if (pySplitOn line "|").any (fun p => !(pyStrip p == "") && containsChar (pyStrip p) '.') then
        let parts := (pySplitOn line "|").map pyStrip
        if 8 ≤ parts.length then
          let node := parts.getD 0 ""
          let recEntry : DcNodeRec :=
            { node := node, dc := parts.getD 1 "", dc_type := parts.getD 2 "",
              namespaces := parts.getD 3 "", lag := parts.getD 4 "",
              records_shipped := coerceDigitField (parts.getD 5 ""),
              avg_latency_ms := coerceDigitField (parts.getD 6 ""),
              status := parts.getD 7 "" }
          if !(node == "") && containsChar node '.' then
            { st1 with nodes := st1.nodes ++ [recEntry] }
          else st1
        else st1
      else st1
    else st1

/-- `parse_info_data`. -/
def parse_info_data (text : String) : InfoParseResult :=
  let final := (pyLines text).foldl infoLineStep
    { timestamp := "", nodes := [], in_header := false }
  { dc_info := some ⟨final.timestamp, final.nodes⟩,
    parse_error := none, raw_content := text }

/-! ## Multi-Tenant Result Store — job/cluster endpoints

The Aerospike set is an association list in record order; `putAssoc` is the
upsert `client.put`, scans are `List.filter` over the set, `removeKey` is
`client.remove`.  Timestamps feeding generated names are parameters
(`ts : ℕ` for `int(datetime.now().timestamp())`, `nameGen i` for
`f"cluster_{timestamp}_{i+1}"`). -/

structure JobRecord where
  health_check_id : String
  customer_name : String
  regions_count : ℕ
  clusters_count : ℕ
  status : String
deriving DecidableEq, Repr

structure ClusterRecord where
  result_key : String
  health_check_id : String
  region_name : String
  cluster_name : String
  filename : String
  status : String
deriving DecidableEq, Repr

abbrev JobStore := List (String × JobRecord)

abbrev ClusterStore := List (String × ClusterRecord)

/-- Upsert: replace the record under an existing key, else append. -/
def putAssoc {α : Type} (s : List (String × α)) (k : String) (v : α) :
    List (String × α) :=
  if (lookupKey s k).isSome then s.map (fun e => if e.1 = k then (k, v) else e)
  else s ++ [(k, v)]

/-- `client.remove`. -/
def removeKey {α : Type} (s : List (String × α)) (k : String) :
    List (String × α) :=
  s.filter (fun e => e.1 != k)

/-- `.replace(' ', '_').lower()` applied to generated keys. -/
def pySanitizeKey (s : String) : String := pyLower (pyReplace s " " "_")

/-- `f"hc_{int(datetime.now().timestamp())}_{customer_name.replace(' ', '_').lower()}"`. -/
def healthCheckId (ts : ℕ) (customer : String) : String :=
  "hc_" ++ toString ts ++ "_" ++ pySanitizeKey customer

def placeholderClusterName (cnt : ℕ) : String :=
  "pending_cluster_" ++ toString cnt

/-- Key of the `j`-th (0-based) placeholder of a region created with the
global counter starting at `j`. -/
def phKey (id region : String) (j : ℕ) : String :=
  pySanitizeKey (id ++ "_" ++ region ++ "_" ++ placeholderClusterName (j + 1))

def placeholderRecord (id region cname rkey : String) : ClusterRecord :=
  { result_key := rkey, health_check_id := id, region_name := region,
    cluster_name := cname, filename := "Waiting for file upload...",
    status := "waiting" }

/-- The per-region placeholder loop of `create_multi_tier_health_check`;
`cnt` is the global `cluster_count` before this region's iterations. -/
def createRegionPlaceholders (id region : String) : ℕ → ℕ → ClusterStore → ClusterStore
  | _, 0, s => s
  | cnt, n + 1, s =>
    let cname := placeholderClusterName (cnt + 1)
    let rkey := pySanitizeKey (id ++ "_" ++ region ++ "_" ++ cname)
    createRegionPlaceholders id region (cnt + 1) n
      (putAssoc s rkey (placeholderRecord id region cname rkey))

def createAllPlaceholders (id : String) : ℕ → List (String × ℕ) → ClusterStore → ClusterStore
  | _, [], s => s
  | cnt, (region, fc) :: rest, s =>
    createAllPlaceholders id (cnt + fc) rest (createRegionPlaceholders id region cnt fc s)

inductive CreateResp where
  | badRequest
  | created (id : String)
deriving DecidableEq, Repr

/-- `create_multi_tier_health_check`: the handler first rejects empty form
fields (`if not customer_name or not regions_data`, a 400) before touching
the store; otherwise it puts the job metadata with status `processing` and
then the eager placeholder entries.  `regions_data` is the raw form string
and `regions` the result of `json.loads(regions_data)` — the JSON decoding
itself is the stdlib boundary. -/
def create_multi_tier_health_check (jobs : JobStore) (clusters : ClusterStore)
    (customer : String) (regions_data : String) (regions : List (String × ℕ))
    (ts : ℕ) : JobStore × ClusterStore × CreateResp :=
  if customer = "" ∨ regions_data = "" then (jobs, clusters, .badRequest)
  else
    let id := healthCheckId ts customer
    let jrec : JobRecord :=
      { health_check_id := id, customer_name := customer,
        regions_count := regions.length,
        clusters_count := (regions.map (·.2)).sum,
        status := "processing" }
    (putAssoc jobs id jrec, createAllPlaceholders id 0 regions clusters, .created id)

/-- The upload handler's placeholder scan (`find_placeholders`). -/
def scanWaitingPlaceholders (s : ClusterStore) (id region : String) :
    List (String × ClusterRecord) :=
  s.filter (fun e =>
    e.2.health_check_id == id && e.2.region_name == region && e.2.status == "waiting")

def processingRecord (id region cname fname rkey : String) : ClusterRecord :=
  { result_key := rkey, health_check_id := id, region_name := region,
    cluster_name := cname, filename := fname, status := "processing" }

/-- The per-file loop of `upload_collectinfo_files`: file `i` claims
placeholder `i` when one exists (reusing its store key and `result_key`),
else writes a fresh entry under a newly derived key. -/
def uploadLoop (id region : String) (nameGen : ℕ → String)
    (ph : List (String × ClusterRecord)) : ℕ → List String → ClusterStore → ClusterStore
  | _, [], s => s
  | i, fname :: rest, s =>
    let cname := nameGen i
    let keys : String × String :=
      match ph[i]? with
      | some p => (p.1, p.2.result_key)
      | none =>
        let rk := pySanitizeKey (id ++ "_" ++ region ++ "_" ++ cname)
        (rk, rk)
    uploadLoop id region nameGen ph (i + 1) rest
      (putAssoc s keys.1 (processingRecord id region cname fname keys.2))

inductive UploadResp where
  | badRequest
  | accepted
deriving DecidableEq, Repr

/-- `upload_collectinfo_files`, synchronous part: the handler first rejects
a request with no files or an empty region name (`if not files or not
region_name`, a 400) without touching the store; otherwise it saves entries
with status `processing` (claiming placeholders), schedules background
processing, then sets the job status to `completed` — all before any
background work runs.  The background tasks, which later move entries to
`completed`/`failed`, are not part of this handler's effect. -/
def upload_collectinfo_files (jobs : JobStore) (clusters : ClusterStore)
    (id region : String) (files : List String) (nameGen : ℕ → String) :
    JobStore × ClusterStore × UploadResp :=
  if files.isEmpty = true ∨ region = "" then (jobs, clusters, .badRequest)
  else
    let ph := scanWaitingPlaceholders clusters id region
    let clusters' := uploadLoop id region nameGen ph 0 files clusters
    let jobs' :=
      match lookupKey jobs id with
      | some j => putAssoc jobs id { j with status := "completed" }
      | none => jobs
    (jobs', clusters', .accepted)

inductive DelOp where
  | clusterRemove (key : String)
  | jobRemove (id : String)
deriving DecidableEq, Repr

structure DeleteOutcome where
  jobs : JobStore
  clusters : ClusterStore
  trace : List DelOp
  found : Bool

/-- `delete_health_check`: 404 when the job record is missing; otherwise
collect the child keys by scan, remove every child, then remove the parent.
`trace` records the removals in issue order. -/
def delete_health_check (jobs : JobStore) (clusters : ClusterStore) (id : String) :
    DeleteOutcome :=
  match lookupKey jobs id with
  | none => { jobs := jobs, clusters := clusters, trace := [], found := false }
  | some _ =>
    let childKeys := (clusters.filter (fun e => e.2.health_check_id == id)).map (·.1)
    { jobs := removeKey jobs id,
      clusters := childKeys.foldl removeKey clusters,
      trace := childKeys.map DelOp.clusterRemove ++ [DelOp.jobRemove id],
      found := true }

/-- `get_health_check_details`: `none` is the 404 branch. -/
def get_health_check_details (jobs : JobStore) (clusters : ClusterStore) (id : String) :
    Option (JobRecord × List (String × ClusterRecord)) :=
  match lookupKey jobs id with
  | none => none
  | some j => some (j, clusters.filter (fun e => e.2.health_check_id == id))

/-- `get_cluster_details`: `none` when the record is missing or belongs to
another job. -/
def get_cluster_details (clusters : ClusterStore) (id rkey : String) :
    Option ClusterRecord :=
  match lookupKey clusters rkey with
  | none => none
  | some r => if r.health_check_id = id then some r else none

/-- Number of records of a job in a given status. -/
def countStatus (s : ClusterStore) (id status : String) : ℕ :=
  (s.filter (fun e => e.2.health_check_id == id && e.2.status == status)).length

/-! Canonical entry families used to characterise the store contents in the
placeholder-claiming proofs. -/

def phEntry (id region : String) (j : ℕ) : String × ClusterRecord :=
  (phKey id region j,
   placeholderRecord id region (placeholderClusterName (j + 1)) (phKey id region j))

def waitEntries (id region : String) : ℕ → ℕ → ClusterStore
  | _, 0 => []
  | i, n + 1 => phEntry id region i :: waitEntries id region (i + 1) n

def procEntry (id region : String) (nameGen : ℕ → String) (i : ℕ) (fname : String) :
    String × ClusterRecord :=
  (phKey id region i,
   processingRecord id region (nameGen i) fname (phKey id region i))

def procEntries (id region : String) (nameGen : ℕ → String) : ℕ → List String → ClusterStore
  | _, [] => []
  | i, f :: fs => procEntry id region nameGen i f :: procEntries id region nameGen (i + 1) fs

/-! ## Fixtures

Concrete instances used by closed witness/counterexample statements. -/

/-- The source's fixed command list. -/
def ASADM_COMMANDS : List String :=
  ["info", "show stat like client_write", "summary"]

/-- A subprocess behaviour where exactly one command fails to launch. -/
def sampleExec : String → ExecOutcome := fun c =>
  if c = "show stat like client_write" then .failedLaunch "asadm not found"
  else .ran "output text" "" 0

/-- The combined diagnostic text of the spec's fallback-extraction test. -/
def sampleCombined : String := "Cluster Name|prod-1\nCluster Size|5"

def jobFixture : JobRecord :=
  { health_check_id := "hc1", customer_name := "acme", regions_count := 1,
    clusters_count := 2, status := "completed" }

def clusterFixture1 : ClusterRecord :=
  { result_key := "k1", health_check_id := "hc1", region_name := "east",
    cluster_name := "c1", filename := "a.tgz", status := "completed" }

def clusterFixture2 : ClusterRecord :=
  { result_key := "k2", health_check_id := "other", region_name := "west",
    cluster_name := "c2", filename := "b.tgz", status := "completed" }

/-! # Theorems -/

/-! ## Fraction interpretation lemmas -/

theorem toRat_fOfNat (n : ℕ) : (fOfNat n).toRat = n := by
  simp [fOfNat, Frac.toRat]

theorem toRat_fadd {a b : Frac} (ha : a.den ≠ 0) (hb : b.den ≠ 0) :
    (fadd a b).toRat = a.toRat + b.toRat := by
  have ha' : ((a.den : ℚ)) ≠ 0 := Nat.cast_ne_zero.mpr ha
  have hb' : ((b.den : ℚ)) ≠ 0 := Nat.cast_ne_zero.mpr hb
  simp only [fadd, Frac.toRat]
  rw [div_add_div _ _ ha' hb']
  push_cast
  ring_nf

theorem toRat_fsub {a b : Frac} (ha : a.den ≠ 0) (hb : b.den ≠ 0) :
    (fsub a b).toRat = a.toRat - b.toRat := by
  have ha' : ((a.den : ℚ)) ≠ 0 := Nat.cast_ne_zero.mpr ha
  have hb' : ((b.den : ℚ)) ≠ 0 := Nat.cast_ne_zero.mpr hb
  simp only [fsub, Frac.toRat]
  rw [div_sub_div _ _ ha' hb']
  push_cast
  ring_nf

theorem toRat_fmul (a b : Frac) : (fmul a b).toRat = a.toRat * b.toRat := by
  simp only [fmul, Frac.toRat]
  push_cast
  rw [div_mul_div_comm]

theorem toRat_finv (b : Frac) : (finv b).toRat = b.toRat⁻¹ := by
  by_cases h : b.num < 0
  · have h1 : ((b.num.natAbs : ℤ)) = -b.num := by
      rw [← Int.natAbs_neg]
      exact Int.natAbs_of_nonneg (by omega)
    have h2 : ((b.num.natAbs : ℕ) : ℚ) = -(b.num : ℚ) := by
      rw [← Int.cast_natCast (R := ℚ), h1]
      push_cast
      ring
    simp only [finv, if_pos h, Frac.toRat, h2]
    rw [inv_div]
    push_cast
    rw [neg_div_neg_eq]
  · have h1 : ((b.num.natAbs : ℤ)) = b.num := Int.natAbs_of_nonneg (not_lt.mp h)
    have h2 : ((b.num.natAbs : ℕ) : ℚ) = (b.num : ℚ) := by
      rw [← Int.cast_natCast (R := ℚ), h1]
    simp only [finv, if_neg h, Frac.toRat, h2]
    rw [inv_div]
    push_cast
    ring

theorem toRat_fdivF (a b : Frac) : (fdivF a b).toRat = a.toRat / b.toRat := by
  rw [fdivF, toRat_fmul, toRat_finv, div_eq_mul_inv]

theorem flt_iff {a b : Frac} (ha : 0 < a.den) (hb : 0 < b.den) :
    flt a b = true ↔ a.toRat < b.toRat := by
  have ha' : (0 : ℚ) < (a.den : ℚ) := by exact_mod_cast ha
  have hb' : (0 : ℚ) < (b.den : ℚ) := by exact_mod_cast hb
  simp only [flt, Frac.toRat, decide_eq_true_eq]
  rw [div_lt_div_iff₀ ha' hb']
  constructor
  · intro h; exact_mod_cast h
  · intro h; exact_mod_cast h

theorem toRat_fmax {a b : Frac} (ha : 0 < a.den) (hb : 0 < b.den) :
    (fmax a b).toRat = max a.toRat b.toRat := by
  unfold fmax
  by_cases h : flt a b = true
  · rw [if_pos h]
    exact (max_eq_right (le_of_lt ((flt_iff ha hb).mp h))).symm
  · rw [if_neg h]
    have : ¬ a.toRat < b.toRat := fun hc => h ((flt_iff ha hb).mpr hc)
    exact (max_eq_left (le_of_not_lt this)).symm

theorem toRat_fmin {a b : Frac} (ha : 0 < a.den) (hb : 0 < b.den) :
    (fmin a b).toRat = min a.toRat b.toRat := by
  unfold fmin
  by_cases h : flt a b = true
  · rw [if_pos h]
    exact (min_eq_left (le_of_lt ((flt_iff ha hb).mp h))).symm
  · rw [if_neg h]
    have : ¬ a.toRat < b.toRat := fun hc => h ((flt_iff ha hb).mpr hc)
    exact (min_eq_right (le_of_not_lt this)).symm

theorem den_foldl_fadd_pos (l : List Frac) (a : Frac) (ha : 0 < a.den)
    (hl : ∀ f ∈ l, 0 < f.den) : 0 < (l.foldl fadd a).den := by
  induction l generalizing a with
  | nil => exact ha
  | cons x t ih =>
    apply ih
    · exact Nat.mul_pos ha (hl x (List.mem_cons_self _ _))
    · intro f hf; exact hl f (List.mem_cons_of_mem _ hf)

theorem den_fsum_pos (l : List Frac) (hl : ∀ f ∈ l, 0 < f.den) : 0 < (fsum l).den :=
  den_foldl_fadd_pos l (fOfNat 0) (by simp [fOfNat]) hl

theorem toRat_foldl_fadd (l : List Frac) (a : Frac) (ha : 0 < a.den)
    (hl : ∀ f ∈ l, 0 < f.den) :
    (l.foldl fadd a).toRat = a.toRat + (l.map Frac.toRat).sum := by
  induction l generalizing a with
  | nil => simp
  | cons x t ih =>
    have hx : 0 < x.den := hl x (List.mem_cons_self _ _)
    have ht : ∀ f ∈ t, 0 < f.den := fun f hf => hl f (List.mem_cons_of_mem _ hf)
    rw [List.foldl_cons, ih (fadd a x) (Nat.mul_pos ha hx) ht,
      toRat_fadd (Nat.pos_iff_ne_zero.mp ha) (Nat.pos_iff_ne_zero.mp hx)]
    simp [add_assoc]

theorem toRat_fsum (l : List Frac) (hl : ∀ f ∈ l, 0 < f.den) :
    (fsum l).toRat = (l.map Frac.toRat).sum := by
  rw [fsum, toRat_foldl_fadd l (fOfNat 0) (by simp [fOfNat]) hl, toRat_fOfNat]
  simp

theorem toRat_fsum_nonneg (l : List Frac) (hl : ∀ f ∈ l, 0 < f.den ∧ 0 ≤ f.toRat) :
    0 ≤ (fsum l).toRat := by
  rw [toRat_fsum l (fun f hf => (hl f hf).1)]
  apply List.sum_nonneg
  intro q hq
  obtain ⟨f, hf, rfl⟩ := List.mem_map.mp hq
  exact (hl f hf).2

/-! ## C2 — unique-write percentage formula and clamping -/

/-- C2: for namespace per-node write arrays whose coerced entries are
non-negative, the computed unique-write percentage equals
`max(0, min(100, (total - replicated) * 100 / total))` when the total is
non-zero and `0` when the total is zero, and it always lies in `[0, 100]`
(even when the replicated sum exceeds the total). -/
theorem c2_unique_writes_percent_clamped
    (cs xs : List Frac)
    (hcs : ∀ f ∈ cs, 0 < f.den ∧ 0 ≤ f.toRat)
    (hxs : ∀ f ∈ xs, 0 < f.den ∧ 0 ≤ f.toRat) :
    ((fsum cs).toRat = 0 →
        (uniqueWritesPercentF (fsum cs) (fsum xs)).toRat = 0) ∧
    ((fsum cs).toRat ≠ 0 →
        (uniqueWritesPercentF (fsum cs) (fsum xs)).toRat =
          max 0 (min 100
            (((fsum cs).toRat - (fsum xs).toRat) * 100 / (fsum cs).toRat))) ∧
    0 ≤ (uniqueWritesPercentF (fsum cs) (fsum xs)).toRat ∧
    (uniqueWritesPercentF (fsum cs) (fsum xs)).toRat ≤ 100 := by
  have hdt : 0 < (fsum cs).den := den_fsum_pos cs (fun f hf => (hcs f hf).1)
  have hdr : 0 < (fsum xs).den := den_fsum_pos xs (fun f hf => (hxs f hf).1)
  have htnn : 0 ≤ (fsum cs).toRat := toRat_fsum_nonneg cs hcs
  unfold uniqueWritesPercentF
  by_cases h : flt (fOfNat 0) (fsum cs) = true
  · have hpos : 0 < (fsum cs).toRat := by
      have := (flt_iff (a := fOfNat 0) (by simp [fOfNat]) hdt).mp h
      rwa [toRat_fOfNat, Nat.cast_zero] at this
    rw [if_pos h]
    have hdsub : 0 < (fsub (fsum cs) (fsum xs)).den := Nat.mul_pos hdt hdr
    have hdmul : 0 < (fmul (fsub (fsum cs) (fsum xs)) (fOfNat 100)).den := by
      simpa [fmul, fOfNat] using hdsub
    have hnumpos : 0 < (fsum cs).num := by
      by_contra hc
      push_neg at hc
      have : (fsum cs).toRat ≤ 0 := by
        unfold Frac.toRat
        apply div_nonpos_of_nonpos_of_nonneg
        · exact_mod_cast hc
        · positivity
      exact absurd hpos (not_lt.mpr this)
    have hddiv : 0 < (fdivF (fmul (fsub (fsum cs) (fsum xs)) (fOfNat 100)) (fsum cs)).den := by
      simp only [fdivF, fmul, finv]
      rw [if_neg (not_lt.mpr (le_of_lt hnumpos))]
      exact Nat.mul_pos hdmul (Int.natAbs_pos.mpr (ne_of_gt hnumpos))
    have hval :
        (fmax (fOfNat 0) (fmin (fOfNat 100)
          (fdivF (fmul (fsub (fsum cs) (fsum xs)) (fOfNat 100)) (fsum cs)))).toRat =
        max 0 (min 100 (((fsum cs).toRat - (fsum xs).toRat) * 100 / (fsum cs).toRat)) := by
      rw [toRat_fmax (by simp [fOfNat]) (by
        unfold fmin
        by_cases hm : flt (fOfNat 100) (fdivF (fmul (fsub (fsum cs) (fsum xs)) (fOfNat 100)) (fsum cs)) = true
        · rw [if_pos hm]; simp [fOfNat]
        · rw [if_neg hm]; exact hddiv)]
      rw [toRat_fmin (by simp [fOfNat]) hddiv]
      rw [toRat_fdivF, toRat_fmul,
        toRat_fsub (Nat.pos_iff_ne_zero.mp hdt) (Nat.pos_iff_ne_zero.mp hdr)]
      simp only [toRat_fOfNat]
      push_cast
      ring_nf
    refine ⟨fun hz => absurd hpos (by simp [hz]), fun _ => hval, ?_, ?_⟩
    · rw [hval]; exact le_max_left 0 _
    · rw [hval]
      apply max_le (by norm_num)
      exact le_trans (min_le_left _ _) (by norm_num)
  · have hz : (fsum cs).toRat = 0 := by
      rcases lt_or_eq_of_le htnn with hlt | heq
      · exact absurd ((flt_iff (a := fOfNat 0) (by simp [fOfNat]) hdt).mpr
          (by rwa [toRat_fOfNat, Nat.cast_zero])) h
      · exact heq.symm
    rw [if_neg h]
    exact ⟨fun _ => toRat_fOfNat 0, fun hne => absurd hz hne,
      by rw [toRat_fOfNat]; norm_num, by rw [toRat_fOfNat]; norm_num⟩

/-- Witness for C2 at a concrete input where the replicated sum (5) exceeds
the client-write sum (3): the percentage is still within bounds. -/
theorem c2_witness :
    0 ≤ (uniqueWritesPercentF (fsum [⟨3, 1⟩]) (fsum [⟨5, 1⟩])).toRat ∧
    (uniqueWritesPercentF (fsum [⟨3, 1⟩]) (fsum [⟨5, 1⟩])).toRat ≤ 100 := by
  have h := c2_unique_writes_percent_clamped [⟨3, 1⟩] [⟨5, 1⟩]
    (by intro f hf; simp only [List.mem_singleton] at hf; subst hf
        exact ⟨by norm_num, by norm_num [Frac.toRat]⟩)
    (by intro f hf; simp only [List.mem_singleton] at hf; subst hf
        exact ⟨by norm_num, by norm_num [Frac.toRat]⟩)
  exact ⟨h.2.2.1, h.2.2.2⟩

/-! ## C8 — derived-metrics error handling -/

/-- C8 counterexample: the claim says missing fields yield the `"N/A"`
sentinel for both derived fields, but the source defaults missing sub-fields
(`[]`, `'0 GB'`) and computes `0.00%`/`0.00 GB`, and skips a namespace
entirely (leaving the derived fields unset) when the `clientWrites` or
`license` key itself is absent. -/
theorem c8_counterexample :
    (computeNamespaceMetrics
      { name := "test",
        clientWrites := some { clientWriteSuccessPerNode := [],
                               xdrClientWriteSuccessPerNode := [] },
        license := some { usage := none } }).clientWrites =
      some { clientWriteSuccessPerNode := [], xdrClientWriteSuccessPerNode := [],
             clientWriteSuccess := some 0, xdrClientWriteSuccess := some 0,
             uniqueWritesPercent := some "0.00%", uniqueData := some "0.00 GB" } ∧
    (some "0.00%" : Option String) ≠ some "N/A" ∧
    computeNamespaceMetrics
      { name := "t2", clientWrites := none, license := some { usage := some "1 GB" } } =
      { name := "t2", clientWrites := none, license := some { usage := some "1 GB" } } := by
  decide

/-- C8 (amended): processing is an independent per-namespace map (so one
namespace never blocks the rest and nothing propagates out); a coercion
failure (non-numeric residue) in either per-node array or in the license
usage sets exactly the two derived fields to `"N/A"`; a namespace without
the `clientWrites` or `license` key is returned unchanged. -/
theorem c8_derived_metrics_error_handling
    (nss : List NamespaceRec) (i : ℕ)
    (ns : NamespaceRec) (cw : ClientWritesRec) (lic : LicenseRec) :
    (calculate_derived_metrics nss)[i]? = (nss[i]?).map computeNamespaceMetrics ∧
    (ns.clientWrites = some cw → ns.license = some lic →
      (cw.clientWriteSuccessPerNode.mapM coerceWriteEntry = none ∨
       cw.xdrClientWriteSuccessPerNode.mapM coerceWriteEntry = none ∨
       coerceLicenseUsage lic.usage = none) →
      (computeNamespaceMetrics ns).clientWrites =
        some { cw with uniqueWritesPercent := some "N/A", uniqueData := some "N/A" }) ∧
    (ns.clientWrites = none ∨ ns.license = none → computeNamespaceMetrics ns = ns) := by
  refine ⟨by simp [calculate_derived_metrics], ?_, ?_⟩
  · intro h1 h2 h3
    unfold computeNamespaceMetrics
    rw [h1, h2]
    dsimp only
    rcases h3 with h | h | h
    · rw [h]
    · rw [h]
      cases cw.clientWriteSuccessPerNode.mapM coerceWriteEntry <;> rfl
    · rw [h]
      cases cw.clientWriteSuccessPerNode.mapM coerceWriteEntry <;>
        cases cw.xdrClientWriteSuccessPerNode.mapM coerceWriteEntry <;> rfl
  · intro h
    unfold computeNamespaceMetrics
    rcases h with h | h
    · rw [h]
    · rw [h]
      cases ns.clientWrites <;> rfl

/-- Witness for C8 at a concrete namespace whose write entry `"abc"` leaves
no digits after coercion: both derived fields become `"N/A"`. -/
theorem c8_witness :
    (computeNamespaceMetrics
      { name := "ns2",
        clientWrites := some { clientWriteSuccessPerNode := ["abc"],
                               xdrClientWriteSuccessPerNode := [] },
        license := some { usage := some "10 GB" } }).clientWrites =
      some { clientWriteSuccessPerNode := ["abc"], xdrClientWriteSuccessPerNode := [],
             uniqueWritesPercent := some "N/A", uniqueData := some "N/A" } :=
  (c8_derived_metrics_error_handling [] 0 _ _ _).2.1 rfl rfl (Or.inl (by decide))

/-! ## C4 — unit normalizer -/

/-- C4 counterexample: the claim says unit-less nonzero input is returned
unchanged, but the source treats an empty unit as the canonical unit and
reformats: `"5"` becomes `"5.00 GB"`. -/
theorem c4_counterexample :
    normalize_to_gb "5" = "5.00 GB" ∧ normalize_to_gb "5" ≠ "5" := by
  decide

/-- C4 (amended): the normalizer is total and its output is always either
the input, the stripped input, or a formatted canonical-unit value; the
special inputs are returned as-is; recognized units scale by powers of 1024
(bytes ÷1024³, KB ÷1024², MB ÷1024, GB and the empty unit unchanged,
TB ×1024, PB ×1024²) with 4 decimals below 0.01, 3 below 1, 2 below 10 and
1 otherwise; an unknown unit or an unparsable number returns the stripped
input. -/
theorem c4_normalize_to_gb_contract :
    (∀ s : String, normalize_to_gb s = s ∨ normalize_to_gb s = pyStrip s ∨
      ∃ g : Frac, normalize_to_gb s = formatFixed g (precOf g) ++ " GB") ∧
    normalize_to_gb "" = "" ∧
    normalize_to_gb "N/A" = "N/A" ∧
    normalize_to_gb "Unknown" = "Unknown" ∧
    normalize_to_gb "5368709 B" = "0.0050 GB" ∧
    normalize_to_gb "1073741824 BYTES" = "1.00 GB" ∧
    normalize_to_gb "1048576 KB" = "1.00 GB" ∧
    normalize_to_gb "1024 K" = "0.0010 GB" ∧
    normalize_to_gb "512 MB" = "0.500 GB" ∧
    normalize_to_gb "1,024 M" = "1.00 GB" ∧
    normalize_to_gb "2.5 GB" = "2.50 GB" ∧
    normalize_to_gb "5" = "5.00 GB" ∧
    normalize_to_gb "4.3 TB" = "4403.2 GB" ∧
    normalize_to_gb "1 T" = "1024.0 GB" ∧
    normalize_to_gb "2 PB" = "2097152.0 GB" ∧
    normalize_to_gb "5 XB" = "5 XB" ∧
    normalize_to_gb "hello" = "hello" ∧
    normalize_to_gb "  7 GB  " = "7.00 GB" := by
  refine ⟨?_, by decide⟩
  intro s
  by_cases h0 : s = "" ∨ s = "N/A" ∨ s = "Unknown"
  · refine Or.inl ?_
    unfold normalize_to_gb
    rw [if_pos h0]
  · unfold normalize_to_gb
    rw [if_neg h0]
    dsimp only
    cases hm : sizeTokenL (pyStrip s).data with
    | none => exact Or.inr (Or.inl rfl)
    | some p =>
      obtain ⟨numL, unitL⟩ := p
      dsimp only
      cases hf : pyFloatDigits (pyReplace (String.mk numL) "," "") with
      | none => exact Or.inr (Or.inl rfl)
      | some q =>
        dsimp only
        by_cases h1 : pyUpper (String.mk unitL) = "B" ∨ pyUpper (String.mk unitL) = "BYTES"
        · rw [if_pos h1]; exact Or.inr (Or.inr ⟨_, rfl⟩)
        rw [if_neg h1]
        by_cases h2 : pyUpper (String.mk unitL) = "KB" ∨ pyUpper (String.mk unitL) = "K"
        · rw [if_pos h2]; exact Or.inr (Or.inr ⟨_, rfl⟩)
        rw [if_neg h2]
        by_cases h3 : pyUpper (String.mk unitL) = "MB" ∨ pyUpper (String.mk unitL) = "M"
        · rw [if_pos h3]; exact Or.inr (Or.inr ⟨_, rfl⟩)
        rw [if_neg h3]
        by_cases h4 : pyUpper (String.mk unitL) = "GB" ∨ pyUpper (String.mk unitL) = "G" ∨
          pyUpper (String.mk unitL) = ""
        · rw [if_pos h4]; exact Or.inr (Or.inr ⟨_, rfl⟩)
        rw [if_neg h4]
        by_cases h5 : pyUpper (String.mk unitL) = "TB" ∨ pyUpper (String.mk unitL) = "T"
        · rw [if_pos h5]; exact Or.inr (Or.inr ⟨_, rfl⟩)
        rw [if_neg h5]
        by_cases h6 : pyUpper (String.mk unitL) = "PB" ∨ pyUpper (String.mk unitL) = "P"
        · rw [if_pos h6]; exact Or.inr (Or.inr ⟨_, rfl⟩)
        rw [if_neg h6]
        exact Or.inr (Or.inl rfl)

/-! ## C3 — diagnostic runner isolation -/

/-- C3: the runner records one entry per command, keyed by the command
string; an entry's `success` flag is true exactly when its exit code is
zero; each entry is a function of that command's own execution outcome
alone, so another command's failure can neither remove it nor change it,
and failures are data (captured stderr, `success := false`), not
exceptions. -/
theorem c3_runner_isolation
    (exec : String → ExecOutcome) (cmds : List String) (c : String) (hc : c ∈ cmds) :
    lookupKey (run_asadm_commands exec cmds) c = some (runOneCommand exec c) ∧
    ((runOneCommand exec c).success = true ↔ (runOneCommand exec c).return_code = 0) ∧
    (run_asadm_commands exec cmds).length = cmds.length := by
  refine ⟨?_, ?_, by simp [run_asadm_commands]⟩
  · induction cmds with
    | nil => cases hc
    | cons d t ih =>
      simp only [run_asadm_commands, List.map_cons, lookupKey]
      by_cases hdc : d = c
      · rw [if_pos hdc, hdc]
      · rw [if_neg hdc]
        rcases List.mem_cons.mp hc with h | h
        · exact absurd h.symm hdc
        · exact ih h
  · unfold runOneCommand
    cases exec c with
    | ran out err code =>
      simp only
      constructor
      · intro h; exact beq_iff_eq.mp h
      · intro h; exact beq_iff_eq.mpr h
    | failedLaunch msg =>
      simp only
      constructor
      · intro h; cases h
      · intro h; cases h

/-- Witness for C3 on the source's fixed command list with one command
failing to launch: every command has an entry, only the failing one is
unsuccessful. -/
theorem c3_witness :
    lookupKey (run_asadm_commands sampleExec ASADM_COMMANDS)
        "show stat like client_write" =
      some ⟨"", "asadm not found", -1, false⟩ ∧
    lookupKey (run_asadm_commands sampleExec ASADM_COMMANDS) "info" =
      some ⟨"output text", "", 0, true⟩ ∧
    lookupKey (run_asadm_commands sampleExec ASADM_COMMANDS) "summary" =
      some ⟨"output text", "", 0, true⟩ := by
  have h1 := c3_runner_isolation sampleExec ASADM_COMMANDS
    "show stat like client_write" (by decide)
  have h2 := c3_runner_isolation sampleExec ASADM_COMMANDS "info" (by decide)
  have h3 := c3_runner_isolation sampleExec ASADM_COMMANDS "summary" (by decide)
  refine ⟨?_, ?_, ?_⟩
  · rw [h1.1]; decide
  · rw [h2.1]; decide
  · rw [h3.1]; decide

/-! ## C5 — archive resolver strategy order -/

/-- C5: decoding succeeds exactly when one of the ordered strategies
succeeds — generic tar, then zip, then (for extensionless files only) a
magic-byte retry of the matching decoder — and the error is raised only
when every strategy is exhausted; tar success short-circuits zip, and when
both decoders fail the result is always the error (the magic-byte retry
reruns a deterministic decoder that already failed). -/
theorem c5_archive_strategy_order (f : ArchiveFile) :
    ((∃ m, extract_collectinfo f = .ok m) ↔
      (f.tarDecodes = true ∨ f.zipDecodes = true ∨
        (f.hasExtension = false ∧
          (((gzipMagic.isPrefixOf (f.content.take 4) ||
             ustarMarker.isPrefixOf (f.content.take 4)) = true ∧ f.tarDecodes = true) ∨
           (pkMarker.isPrefixOf (f.content.take 4) = true ∧ f.zipDecodes = true))))) ∧
    (f.tarDecodes = true → extract_collectinfo f = .ok .tarDirect) ∧
    (f.tarDecodes = false → f.zipDecodes = true → extract_collectinfo f = .ok .zipDirect) ∧
    (f.tarDecodes = false → f.zipDecodes = false →
      extract_collectinfo f = .error extractionFailureMsg) := by
  obtain ⟨he, cont, tar, zip⟩ := f
  cases tar <;> cases zip <;> cases he <;>
    simp only [extract_collectinfo, Bool.false_eq_true, Bool.not_false, Bool.not_true,
      if_true, if_false, ite_true, ite_false] <;>
    constructor
  all_goals try constructor
  all_goals simp

/-- Witness for C5: a file the tar decoder accepts resolves by the first
strategy; one only the zip decoder accepts resolves by the second; one
neither accepts fails with the extraction error. -/
theorem c5_witness :
    extract_collectinfo ⟨true, [], true, false⟩ = .ok .tarDirect ∧
    extract_collectinfo ⟨true, [], false, true⟩ = .ok .zipDirect ∧
    extract_collectinfo ⟨false, [0x42], false, false⟩ = .error extractionFailureMsg :=
  ⟨(c5_archive_strategy_order ⟨true, [], true, false⟩).2.1 rfl,
   (c5_archive_strategy_order ⟨true, [], false, true⟩).2.2.1 rfl rfl,
   (c5_archive_strategy_order ⟨false, [0x42], false, false⟩).2.2.2 rfl rfl⟩

/-! ## C10 — secondary parser envelope -/

/-- C10: `parse_info_data` is total (the embedded `try` body cannot fail, so
the catch-all `except` — which would set `parse_error` and still carry the
text — is never taken) and on every input the returned record preserves the
full input text in `raw_content`, with `parse_error` unset on this success
path. -/
theorem c10_info_parser_preserves_raw (text : String) :
    (parse_info_data text).raw_content = text ∧
    (parse_info_data text).parse_error = none :=
  ⟨rfl, rfl⟩

/-! ## C1 — structured-extractor fallback -/

/-- C1 counterexample: with the oracle disabled (key not configured) the
source returns early with the minimal `{error, raw_content}` record and
never runs the label-matching fallback, so on the spec's test input the
returned record carries no cluster name or size at all (in particular not
`prod-1` / `5`). -/
theorem c1_counterexample :
    clusterNameOf (parse_with_gemini false (.raises "any") (fun _ => true)
      sampleCombined) = none ∧
    clusterSizeOf (parse_with_gemini false (.raises "any") (fun _ => true)
      sampleCombined) = none ∧
    parse_with_gemini false (.raises "any") (fun _ => true) sampleCombined =
      .keyMissing "Gemini API key not configured" sampleCombined := by
  decide

/-- C1 (amended): when the oracle is not configured the extractor returns,
deterministically and without raising, a minimal record whose error string
is non-empty and whose raw text is preserved, but with no extracted cluster
fields; when the oracle is unreachable, returns an empty/too-short
response, or returns output that fails JSON parsing, it returns the
deterministic fallback record, which on input containing
`"Cluster Name|prod-1"` and `"Cluster Size|5"` has name `prod-1`, size `5`,
a non-empty error string, and the raw text preserved. -/
theorem c1_fallback_extraction :
    (∀ (oracle : OracleOutcome) (jd : String → Bool) (combined : String),
      parse_with_gemini false oracle jd combined =
        .keyMissing "Gemini API key not configured" combined) ∧
    (clusterNameOf (parse_with_gemini true (.raises "connection refused")
        (fun _ => true) sampleCombined) = some "prod-1" ∧
     clusterSizeOf (parse_with_gemini true (.raises "connection refused")
        (fun _ => true) sampleCombined) = some 5 ∧
     errorFieldOf (parse_with_gemini true (.raises "connection refused")
        (fun _ => true) sampleCombined) =
          some "Gemini API error: connection refused" ∧
     "Gemini API error: connection refused" ≠ "" ∧
     rawContentOf (parse_with_gemini true (.raises "connection refused")
        (fun _ => true) sampleCombined) = sampleCombined) ∧
    (clusterNameOf (parse_with_gemini true (.returns "this is not json at all")
        (fun _ => false) sampleCombined) = some "prod-1" ∧
     clusterSizeOf (parse_with_gemini true (.returns "this is not json at all")
        (fun _ => false) sampleCombined) = some 5 ∧
     errorFieldOf (parse_with_gemini true (.returns "this is not json at all")
        (fun _ => false) sampleCombined) = some "this is not json at all" ∧
     rawContentOf (parse_with_gemini true (.returns "this is not json at all")
        (fun _ => false) sampleCombined) = sampleCombined) ∧
    (errorFieldOf (parse_with_gemini true (.returns "  short ")
        (fun _ => true) sampleCombined) =
          some "Gemini API error: Gemini API returned empty response" ∧
     clusterNameOf (parse_with_gemini true (.returns "  short ")
        (fun _ => true) sampleCombined) = some "prod-1" ∧
     rawContentOf (parse_with_gemini true (.returns "  short ")
        (fun _ => true) sampleCombined) = sampleCombined) := by
  refine ⟨fun oracle jd combined => rfl, by decide, by decide, by decide⟩

/-! ## Association-store lemmas -/

theorem lookup_append_of_none {α : Type} {a : List (String × α)}
    (b : List (String × α)) {k : String} (h : lookupKey a k = none) :
    lookupKey (a ++ b) k = lookupKey b k := by
  induction a with
  | nil => rfl
  | cons e t ih =>
    simp only [lookupKey, List.cons_append] at h ⊢
    by_cases hek : e.1 = k
    · rw [if_pos hek] at h; cases h
    · rw [if_neg hek] at h ⊢
      exact ih h

theorem lookup_none_of_all_ne {α : Type} {l : List (String × α)} {k : String}
    (h : ∀ e ∈ l, e.1 ≠ k) : lookupKey l k = none := by
  induction l with
  | nil => rfl
  | cons e t ih =>
    simp only [lookupKey]
    rw [if_neg (h e (List.mem_cons_self _ _))]
    exact ih (fun x hx => h x (List.mem_cons_of_mem _ hx))

theorem lookup_none_of_filter {α : Type} (p : String × α → Bool)
    {s : List (String × α)} {k : String} (h : lookupKey s k = none) :
    lookupKey (s.filter p) k = none := by
  induction s with
  | nil => rfl
  | cons e t ih =>
    simp only [lookupKey] at h
    by_cases hek : e.1 = k
    · rw [if_pos hek] at h; cases h
    · rw [if_neg hek] at h
      rw [List.filter_cons]
      by_cases hp : p e = true
      · rw [if_pos hp]
        simp only [lookupKey, if_neg hek]
        exact ih h
      · rw [if_neg hp]
        exact ih h

theorem lookup_removeKey_self {α : Type} (s : List (String × α)) (k : String) :
    lookupKey (removeKey s k) k = none := by
  induction s with
  | nil => rfl
  | cons e t ih =>
    rw [removeKey, List.filter_cons]
    by_cases hek : e.1 = k
    · have hb : (e.1 != k) = false := by simp [hek]
      rw [hb]
      simpa [removeKey] using ih
    · have hb : (e.1 != k) = true := by simp [hek]
      rw [hb]
      simp only [if_true, lookupKey, if_neg hek]
      simpa [removeKey] using ih

theorem lookup_foldl_removeKey_none {α : Type} (ks : List String)
    (s : List (String × α)) {k : String} (h : lookupKey s k = none) :
    lookupKey (ks.foldl removeKey s) k = none := by
  induction ks generalizing s with
  | nil => exact h
  | cons k' t ih =>
    exact ih _ (lookup_none_of_filter _ h)

theorem lookup_foldl_removeKey_mem {α : Type} (ks : List String)
    (s : List (String × α)) {k : String} (h : k ∈ ks) :
    lookupKey (ks.foldl removeKey s) k = none := by
  induction ks generalizing s with
  | nil => cases h
  | cons k' t ih =>
    rcases List.mem_cons.mp h with rfl | hmem
    · exact lookup_foldl_removeKey_none t _ (lookup_removeKey_self s k)
    · exact ih _ hmem

theorem lookup_some_mem {α : Type} {s : List (String × α)} {k : String} {v : α}
    (h : lookupKey s k = some v) : (k, v) ∈ s := by
  induction s with
  | nil => cases h
  | cons e t ih =>
    obtain ⟨k0, v0⟩ := e
    simp only [lookupKey] at h
    by_cases hek : k0 = k
    · subst hek
      rw [if_pos rfl] at h
      injection h with h'
      subst h'
      exact List.mem_cons_self _ _
    · rw [if_neg hek] at h
      exact List.mem_cons_of_mem _ (ih h)

theorem lookup_map_replace {α : Type} {s : List (String × α)} {k : String}
    (v : α) (h : (lookupKey s k).isSome = true) :
    lookupKey (s.map (fun e => if e.1 = k then (k, v) else e)) k = some v := by
  induction s with
  | nil => simp [lookupKey] at h
  | cons e t ih =>
    simp only [List.map_cons]
    by_cases hek : e.1 = k
    · rw [if_pos hek]
      simp [lookupKey]
    · rw [if_neg hek]
      simp only [lookupKey, if_neg hek] at h ⊢
      exact ih h

theorem lookup_putAssoc_self {α : Type} (s : List (String × α)) (k : String) (v : α) :
    lookupKey (putAssoc s k v) k = some v := by
  unfold putAssoc
  by_cases h : (lookupKey s k).isSome = true
  · rw [if_pos h]
    exact lookup_map_replace v h
  · rw [if_neg h]
    have hn : lookupKey s k = none := by
      cases hc : lookupKey s k
      · rfl
      · rw [hc] at h; simp at h
    rw [lookup_append_of_none _ hn]
    simp [lookupKey]

theorem putAssoc_of_none {α : Type} {s : List (String × α)} {k : String} (v : α)
    (h : lookupKey s k = none) : putAssoc s k v = s ++ [(k, v)] := by
  unfold putAssoc
  rw [h]
  rfl

theorem map_replace_id {α : Type} {k : String} (v : α) {l : List (String × α)}
    (h : ∀ e ∈ l, e.1 ≠ k) :
    l.map (fun e => if e.1 = k then (k, v) else e) = l := by
  induction l with
  | nil => rfl
  | cons e t ih =>
    simp only [List.map_cons]
    rw [if_neg (h e (List.mem_cons_self _ _)), ih (fun x hx => h x (List.mem_cons_of_mem _ hx))]

theorem putAssoc_replace_mid {α : Type} (P W : List (String × α)) (k : String)
    (w v : α) (hP : ∀ e ∈ P, e.1 ≠ k) (hW : ∀ e ∈ W, e.1 ≠ k) :
    putAssoc (P ++ (k, w) :: W) k v = P ++ (k, v) :: W := by
  have hlk : lookupKey (P ++ (k, w) :: W) k = some w := by
    rw [lookup_append_of_none _ (lookup_none_of_all_ne hP)]
    simp [lookupKey]
  unfold putAssoc
  rw [hlk]
  simp only [Option.isSome_some, if_true]
  rw [List.map_append, List.map_cons, map_replace_id v hP, map_replace_id v hW, if_pos rfl]

/-! ## Placeholder-store shape lemmas -/

theorem waitEntries_length (id region : String) (i m : ℕ) :
    (waitEntries id region i m).length = m := by
  induction m generalizing i with
  | zero => rfl
  | succ n ih => simp [waitEntries, ih]

theorem procEntries_length (id region : String) (ng : ℕ → String) (i : ℕ)
    (fs : List String) : (procEntries id region ng i fs).length = fs.length := by
  induction fs generalizing i with
  | nil => rfl
  | cons f t ih => simp [procEntries, ih]

theorem mem_waitEntries (id region : String) {i m : ℕ} {e : String × ClusterRecord}
    (h : e ∈ waitEntries id region i m) :
    ∃ j, j < m ∧ e = phEntry id region (i + j) := by
  induction m generalizing i with
  | zero => cases h
  | succ n ih =>
    rcases List.mem_cons.mp h with rfl | hmem
    · exact ⟨0, Nat.succ_pos n, by simp⟩
    · obtain ⟨j, hj, he⟩ := ih hmem
      exact ⟨j + 1, by omega, by rw [he]; congr 1; omega⟩

theorem mem_procEntries (id region : String) (ng : ℕ → String)
    {i : ℕ} {fs : List String} {e : String × ClusterRecord}
    (h : e ∈ procEntries id region ng i fs) :
    ∃ j f, j < fs.length ∧ e = procEntry id region ng (i + j) f := by
  induction fs generalizing i with
  | nil => cases h
  | cons f t ih =>
    rcases List.mem_cons.mp h with rfl | hmem
    · exact ⟨0, f, Nat.succ_pos _, by simp⟩
    · obtain ⟨j, f', hj, he⟩ := ih hmem
      exact ⟨j + 1, f', by simpa using Nat.succ_lt_succ hj, by rw [he]; congr 1; omega⟩

theorem waitEntries_getElem (id region : String) (m i j : ℕ) (h : j < m) :
    (waitEntries id region i m)[j]? = some (phEntry id region (i + j)) := by
  induction m generalizing i j with
  | zero => omega
  | succ n ih =>
    cases j with
    | zero => simp [waitEntries]
    | succ j' =>
      show (phEntry id region i :: waitEntries id region (i + 1) n)[j' + 1]? = _
      rw [List.getElem?_cons_succ, ih (i + 1) j' (by omega)]
      congr 2
      omega

theorem procEntries_append (id region : String) (ng : ℕ → String) (i : ℕ)
    (done : List String) (f : String) :
    procEntries id region ng i (done ++ [f]) =
      procEntries id region ng i done ++ [procEntry id region ng (i + done.length) f] := by
  induction done generalizing i with
  | nil => simp [procEntries]
  | cons d t ih =>
    show procEntry id region ng i d :: procEntries id region ng (i + 1) (t ++ [f]) =
      procEntry id region ng i d ::
        (procEntries id region ng (i + 1) t ++ [procEntry id region ng (i + (d :: t).length) f])
    rw [ih (i + 1)]
    have harith : i + 1 + t.length = i + (d :: t).length := by
      simp only [List.length_cons]
      omega
    rw [harith]

theorem createRegion_go (id region : String) (m : ℕ) :
    ∀ (cnt : ℕ) (s : ClusterStore),
    (∀ j, cnt ≤ j → j < cnt + m → lookupKey s (phKey id region j) = none) →
    (∀ a b, cnt ≤ a → a < cnt + m → cnt ≤ b → b < cnt + m →
      phKey id region a = phKey id region b → a = b) →
    createRegionPlaceholders id region cnt m s = s ++ waitEntries id region cnt m := by
  induction m with
  | zero => intro cnt s _ _; simp [createRegionPlaceholders, waitEntries]
  | succ n ih =>
    intro cnt s hs hinj
    show createRegionPlaceholders id region (cnt + 1) n
      (putAssoc s (phKey id region cnt)
        (placeholderRecord id region (placeholderClusterName (cnt + 1)) (phKey id region cnt)))
      = s ++ waitEntries id region cnt (n + 1)
    rw [putAssoc_of_none _ (hs cnt le_rfl (by omega))]
    rw [ih (cnt + 1) _ ?_ ?_]
    · rw [List.append_assoc]
      rfl
    · intro j hj1 hj2
      rw [lookup_append_of_none _ (hs j (by omega) (by omega))]
      simp only [lookupKey]
      have hne : phKey id region cnt ≠ phKey id region j := by
        intro heq
        have := hinj cnt j le_rfl (by omega) (by omega) (by omega) heq
        omega
      rw [if_neg hne]
    · intro a b ha1 ha2 hb1 hb2 heq
      exact hinj a b (by omega) (by omega) (by omega) (by omega) heq

theorem scanWaiting_waitEntries (id region : String) (i m : ℕ) :
    scanWaitingPlaceholders (waitEntries id region i m) id region =
      waitEntries id region i m := by
  apply List.filter_eq_self.mpr
  intro e he
  obtain ⟨j, hj, rfl⟩ := mem_waitEntries id region he
  simp [phEntry, placeholderRecord]

theorem countStatus_append (a b : ClusterStore) (id st : String) :
    countStatus (a ++ b) id st = countStatus a id st + countStatus b id st := by
  simp [countStatus, List.filter_append]

theorem countStatus_waitEntries (id region : String) (i m : ℕ) (st : String) :
    countStatus (waitEntries id region i m) id st = if "waiting" = st then m else 0 := by
  induction m generalizing i with
  | zero => simp [waitEntries, countStatus]
  | succ n ih =>
    show countStatus (phEntry id region i :: waitEntries id region (i + 1) n) id st = _
    unfold countStatus at ih ⊢
    rw [List.filter_cons]
    have hpred : ((phEntry id region i).2.health_check_id == id &&
        (phEntry id region i).2.status == st) = ("waiting" == st) := by
      simp [phEntry, placeholderRecord]
    rw [hpred]
    by_cases h : "waiting" = st
    · rw [if_pos (by simp [h]), List.length_cons, ih (i + 1)]
      simp [h]
    · rw [if_neg (by simp [h]), ih (i + 1)]
      simp [h]

theorem countStatus_procEntries (id region : String) (ng : ℕ → String) (i : ℕ)
    (fs : List String) (st : String) :
    countStatus (procEntries id region ng i fs) id st =
      if "processing" = st then fs.length else 0 := by
  induction fs generalizing i with
  | nil => simp [procEntries, countStatus]
  | cons f t ih =>
    show countStatus (procEntry id region ng i f :: procEntries id region ng (i + 1) t) id st = _
    unfold countStatus at ih ⊢
    rw [List.filter_cons]
    have hpred : ((procEntry id region ng i f).2.health_check_id == id &&
        (procEntry id region ng i f).2.status == st) = ("processing" == st) := by
      simp [procEntry, processingRecord]
    rw [hpred]
    by_cases h : "processing" = st
    · rw [if_pos (by simp [h]), List.length_cons, ih (i + 1)]
      simp [h]
    · rw [if_neg (by simp [h]), ih (i + 1)]
      simp [h]

theorem uploadLoop_shape (id region : String) (ng : ℕ → String) (n : ℕ)
    (hinj : ∀ a b, a < n → b < n → phKey id region a = phKey id region b → a = b)
    (fs : List String) : ∀ (done : List String),
    done.length + fs.length ≤ n →
    uploadLoop id region ng (waitEntries id region 0 n) done.length fs
      (procEntries id region ng 0 done ++
        waitEntries id region done.length (n - done.length)) =
    procEntries id region ng 0 (done ++ fs) ++
      waitEntries id region (done.length + fs.length) (n - (done.length + fs.length)) := by
  induction fs with
  | nil =>
    intro done _
    simp [uploadLoop]
  | cons f rest ih =>
    intro done hle
    have hi : done.length < n := by
      have := hle
      simp only [List.length_cons] at this
      omega
    show uploadLoop id region ng (waitEntries id region 0 n) done.length (f :: rest)
        (procEntries id region ng 0 done ++
          waitEntries id region done.length (n - done.length)) = _
    unfold uploadLoop
    rw [waitEntries_getElem id region n 0 done.length hi]
    simp only [Nat.zero_add]
    have hsplit : n - done.length = (n - (done.length + 1)) + 1 := by omega
    rw [hsplit]
    rw [show waitEntries id region done.length ((n - (done.length + 1)) + 1) =
      phEntry id region done.length ::
        waitEntries id region (done.length + 1) (n - (done.length + 1)) from rfl]
    have hP : ∀ e ∈ procEntries id region ng 0 done, e.1 ≠ phKey id region done.length := by
      intro e he heq
      obtain ⟨j, f', hj, rfl⟩ := mem_procEntries id region ng he
      have : j = done.length := hinj _ _ (by omega) hi (by simpa [procEntry] using heq)
      omega
    have hW : ∀ e ∈ waitEntries id region (done.length + 1) (n - (done.length + 1)),
        e.1 ≠ phKey id region done.length := by
      intro e he heq
      obtain ⟨j, hj, rfl⟩ := mem_waitEntries id region he
      have : done.length + 1 + j = done.length :=
        hinj _ _ (by omega) hi (by simpa [phEntry] using heq)
      omega
    rw [show (phEntry id region done.length).1 = phKey id region done.length from rfl,
      show (phEntry id region done.length).2.result_key = phKey id region done.length from rfl]
    rw [show phEntry id region done.length =
      (phKey id region done.length,
        placeholderRecord id region (placeholderClusterName (done.length + 1))
          (phKey id region done.length)) from rfl]
    rw [putAssoc_replace_mid _ _ _ _ _ hP hW]
    rw [show (phKey id region done.length,
        processingRecord id region (ng done.length) f (phKey id region done.length)) =
      procEntry id region ng done.length f from rfl]
    rw [show procEntries id region ng 0 done ++
        procEntry id region ng done.length f ::
          waitEntries id region (done.length + 1) (n - (done.length + 1)) =
      (procEntries id region ng 0 done ++ [procEntry id region ng done.length f]) ++
        waitEntries id region (done.length + 1) (n - (done.length + 1)) by
      rw [List.append_assoc]; rfl]
    rw [show procEntries id region ng 0 done ++ [procEntry id region ng done.length f] =
      procEntries id region ng 0 (done ++ [f]) by
      rw [procEntries_append]
      simp only [Nat.zero_add]]
    have hlen1 : (done ++ [f]).length = done.length + 1 := by simp
    have := ih (done ++ [f]) (by simp only [hlen1, List.length_cons] at hle ⊢; omega)
    rw [hlen1] at this
    rw [this]
    rw [show (done ++ [f]) ++ rest = done ++ (f :: rest) by simp]
    have harith : done.length + 1 + rest.length = done.length + (f :: rest).length := by
      simp only [List.length_cons]
      omega
    rw [harith]

/-- The placeholder store a fresh single-region job creates. -/
theorem createRegion_eq (id region : String) (n : ℕ)
    (hinj : ∀ a b, a < n → b < n → phKey id region a = phKey id region b → a = b) :
    createRegionPlaceholders id region 0 n [] = waitEntries id region 0 n := by
  have h := createRegion_go id region n 0 [] (fun j _ _ => rfl)
    (fun a b ha1 ha2 hb1 hb2 heq => hinj a b (by omega) (by omega) heq)
  simpa using h

/-- Key injectivity out of the `Nodup` form of the hypothesis. -/
theorem phKey_inj_of_nodup (id region : String) (n : ℕ)
    (hkeys : ((List.range n).map (phKey id region)).Nodup) :
    ∀ a b, a < n → b < n → phKey id region a = phKey id region b → a = b := by
  intro a b ha hb heq
  have h := (List.nodup_map_iff_inj_on (List.nodup_range n)).mp hkeys
  exact h a (List.mem_range.mpr ha) b (List.mem_range.mpr hb) heq

/-- The cluster store after the upload handler ran on a freshly created
single-region job: the first `files.length` placeholders are replaced by
`processing` entries in place, the rest stay `waiting`, and no entry is
added (given at most as many files as placeholders). -/
theorem uploadStore_eq (id region : String) (ng : ℕ → String) (n : ℕ)
    (files : List String) (jobs : JobStore)
    (hinj : ∀ a b, a < n → b < n → phKey id region a = phKey id region b → a = b)
    (hlen : files.length ≤ n) (hne : ¬(files.isEmpty = true ∨ region = "")) :
    (upload_collectinfo_files jobs (createRegionPlaceholders id region 0 n [])
        id region files ng).2.1 =
      procEntries id region ng 0 files ++
        waitEntries id region files.length (n - files.length) := by
  unfold upload_collectinfo_files
  rw [if_neg hne]
  show uploadLoop id region ng
      (scanWaitingPlaceholders (createRegionPlaceholders id region 0 n []) id region)
      0 files (createRegionPlaceholders id region 0 n []) = _
  rw [createRegion_eq id region n hinj, scanWaiting_waitEntries]
  have h := uploadLoop_shape id region ng n hinj files [] (by simpa using hlen)
  simp only [List.length_nil, List.nil_append, Nat.zero_add, Nat.sub_zero] at h
  rw [show procEntries id region ng 0 [] = [] from rfl] at h
  simpa using h

/-! ## C6 — eager placeholders and placeholder claiming -/

/-- C6: creating a single-region job with `n` declared files eagerly stores
exactly `n` placeholder entries in status `waiting`; uploading
`files.length ≤ n` files claims that many placeholders in place (moving
them to `processing`) without creating any new entry, leaving
`n - files.length` entries `waiting`, `files.length` entries `processing`,
none `completed`, and `n` entries in total — in particular 3 declared and
2 uploaded leaves 1 `waiting` and 2 `processing`/`completed`. -/
theorem c6_placeholder_claiming
    (id region : String) (n : ℕ) (files : List String) (nameGen : ℕ → String)
    (jobs : JobStore)
    (hkeys : ((List.range n).map (phKey id region)).Nodup)
    (hlen : files.length ≤ n) (hreg : region ≠ "") :
    countStatus (createRegionPlaceholders id region 0 n []) id "waiting" = n ∧
    (createRegionPlaceholders id region 0 n []).length = n ∧
    countStatus ((upload_collectinfo_files jobs
        (createRegionPlaceholders id region 0 n []) id region files nameGen).2.1)
      id "waiting" = n - files.length ∧
    countStatus ((upload_collectinfo_files jobs
        (createRegionPlaceholders id region 0 n []) id region files nameGen).2.1)
      id "processing" = files.length ∧
    countStatus ((upload_collectinfo_files jobs
        (createRegionPlaceholders id region 0 n []) id region files nameGen).2.1)
      id "completed" = 0 ∧
    ((upload_collectinfo_files jobs
        (createRegionPlaceholders id region 0 n []) id region files nameGen).2.1).length = n := by
  have hinj := phKey_inj_of_nodup id region n hkeys
  have hcr := createRegion_eq id region n hinj
  refine ⟨?_, ?_, ?_⟩
  · rw [hcr, countStatus_waitEntries]
    simp
  · rw [hcr, waitEntries_length]
  by_cases hne : files.isEmpty = true
  · have hf0 : files = [] := List.isEmpty_iff.mp hne
    subst hf0
    unfold upload_collectinfo_files
    rw [if_pos (show ([] : List String).isEmpty = true ∨ region = "" from Or.inl rfl)]
    refine ⟨?_, ?_, ?_, ?_⟩
    · show countStatus (createRegionPlaceholders id region 0 n []) id "waiting" =
        n - ([] : List String).length
      rw [hcr, countStatus_waitEntries]
      simp
    · show countStatus (createRegionPlaceholders id region 0 n []) id "processing" =
        ([] : List String).length
      rw [hcr, countStatus_waitEntries]
      simp
    · show countStatus (createRegionPlaceholders id region 0 n []) id "completed" = 0
      rw [hcr, countStatus_waitEntries]
      simp
    · show (createRegionPlaceholders id region 0 n []).length = n
      rw [hcr, waitEntries_length]
  · have hst := uploadStore_eq id region nameGen n files jobs hinj hlen
      (not_or.mpr ⟨hne, hreg⟩)
    rw [hst]
    refine ⟨?_, ?_, ?_, ?_⟩
    · rw [countStatus_append, countStatus_procEntries, countStatus_waitEntries]
      simp
    · rw [countStatus_append, countStatus_procEntries, countStatus_waitEntries]
      simp
    · rw [countStatus_append, countStatus_procEntries, countStatus_waitEntries]
      simp
    · rw [List.length_append, procEntries_length, waitEntries_length]
      omega

/-- Witness for C6: region `east` declared with `file_count = 3`, then 2
files uploaded — exactly 1 entry left `waiting`, 2 `processing`, 0
`completed`, 3 total. -/
theorem c6_witness :
    countStatus (createRegionPlaceholders "hc1" "east" 0 3 []) "hc1" "waiting" = 3 ∧
    countStatus ((upload_collectinfo_files [] (createRegionPlaceholders "hc1" "east" 0 3 [])
        "hc1" "east" ["a.tgz", "b.tgz"] (fun i => "cluster_1700_" ++ toString (i + 1))).2.1)
      "hc1" "waiting" = 1 ∧
    countStatus ((upload_collectinfo_files [] (createRegionPlaceholders "hc1" "east" 0 3 [])
        "hc1" "east" ["a.tgz", "b.tgz"] (fun i => "cluster_1700_" ++ toString (i + 1))).2.1)
      "hc1" "processing" = 2 ∧
    countStatus ((upload_collectinfo_files [] (createRegionPlaceholders "hc1" "east" 0 3 [])
        "hc1" "east" ["a.tgz", "b.tgz"] (fun i => "cluster_1700_" ++ toString (i + 1))).2.1)
      "hc1" "completed" = 0 := by
  have h := c6_placeholder_claiming "hc1" "east" 3 ["a.tgz", "b.tgz"]
    (fun i => "cluster_1700_" ++ toString (i + 1)) [] (by decide) (by decide) (by decide)
  exact ⟨h.1, h.2.2.1, h.2.2.2.1, h.2.2.2.2.1⟩

/-! ## C9 — job status `completed` before background processing -/

/-- C9: right after a successful multi-file upload request, the parent
job's status is `completed` while every one of the uploaded files' cluster
entries is still `processing` (the background tasks that may later move
them to `completed`/`failed` have not run) — so a `completed` job can have
`processing` children. -/
theorem c9_completed_while_processing
    (customer region regions_data : String) (ts n : ℕ) (files : List String)
    (nameGen : ℕ → String)
    (hkeys : ((List.range n).map (phKey (healthCheckId ts customer) region)).Nodup)
    (hlen : files.length ≤ n) (hne : files ≠ [])
    (hcust : customer ≠ "") (hrd : regions_data ≠ "") (hreg : region ≠ "") :
    (create_multi_tier_health_check [] [] customer regions_data [(region, n)] ts).2.2 =
      .created (healthCheckId ts customer) ∧
    (upload_collectinfo_files
        (create_multi_tier_health_check [] [] customer regions_data [(region, n)] ts).1
        (create_multi_tier_health_check [] [] customer regions_data [(region, n)] ts).2.1
        (healthCheckId ts customer) region files nameGen).2.2 = .accepted ∧
    (∃ j, lookupKey (upload_collectinfo_files
        (create_multi_tier_health_check [] [] customer regions_data [(region, n)] ts).1
        (create_multi_tier_health_check [] [] customer regions_data [(region, n)] ts).2.1
        (healthCheckId ts customer) region files nameGen).1
          (healthCheckId ts customer) = some j ∧ j.status = "completed") ∧
    countStatus ((upload_collectinfo_files
        (create_multi_tier_health_check [] [] customer regions_data [(region, n)] ts).1
        (create_multi_tier_health_check [] [] customer regions_data [(region, n)] ts).2.1
        (healthCheckId ts customer) region files nameGen).2.1)
      (healthCheckId ts customer) "processing" = files.length ∧
    countStatus ((upload_collectinfo_files
        (create_multi_tier_health_check [] [] customer regions_data [(region, n)] ts).1
        (create_multi_tier_health_check [] [] customer regions_data [(region, n)] ts).2.1
        (healthCheckId ts customer) region files nameGen).2.1)
      (healthCheckId ts customer) "completed" = 0 ∧
    files.length ≠ 0 := by
  have hinj := phKey_inj_of_nodup (healthCheckId ts customer) region n hkeys
  have hguard : ¬(customer = "" ∨ regions_data = "") := not_or.mpr ⟨hcust, hrd⟩
  have hne' : ¬files.isEmpty = true := by
    cases files
    · exact absurd rfl hne
    · simp
  have hneU : ¬(files.isEmpty = true ∨ region = "") := not_or.mpr ⟨hne', hreg⟩
  have hjob1 : (create_multi_tier_health_check [] [] customer regions_data
      [(region, n)] ts).1 =
      [(healthCheckId ts customer,
        { health_check_id := healthCheckId ts customer, customer_name := customer,
          regions_count := 1, clusters_count := n, status := "processing" })] := by
    unfold create_multi_tier_health_check
    rw [if_neg hguard]
    rfl
  have hcl1 : (create_multi_tier_health_check [] [] customer regions_data
      [(region, n)] ts).2.1 =
      createRegionPlaceholders (healthCheckId ts customer) region 0 n [] := by
    unfold create_multi_tier_health_check
    rw [if_neg hguard]
    rfl
  refine ⟨?_, ?_, ?_, ?_, ?_, ?_⟩
  · unfold create_multi_tier_health_check
    rw [if_neg hguard]
  · unfold upload_collectinfo_files
    rw [if_neg hneU]
  · unfold upload_collectinfo_files
    rw [if_neg hneU]
    show ∃ j, lookupKey (match lookupKey
        (create_multi_tier_health_check [] [] customer regions_data [(region, n)] ts).1
        (healthCheckId ts customer) with
      | some j => putAssoc
          (create_multi_tier_health_check [] [] customer regions_data [(region, n)] ts).1
          (healthCheckId ts customer) { j with status := "completed" }
      | none =>
          (create_multi_tier_health_check [] [] customer regions_data [(region, n)] ts).1)
        (healthCheckId ts customer) = some j ∧ j.status = "completed"
    rw [hjob1]
    rw [show lookupKey [(healthCheckId ts customer,
        ({ health_check_id := healthCheckId ts customer, customer_name := customer,
           regions_count := 1, clusters_count := n,
           status := "processing" } : JobRecord))] (healthCheckId ts customer) =
      some { health_check_id := healthCheckId ts customer, customer_name := customer,
             regions_count := 1, clusters_count := n, status := "processing" } by
      simp [lookupKey]]
    refine ⟨_, lookup_putAssoc_self _ _ _, rfl⟩
  · rw [hcl1, uploadStore_eq _ region nameGen n files _ hinj hlen hneU,
      countStatus_append, countStatus_procEntries, countStatus_waitEntries]
    simp
  · rw [hcl1, uploadStore_eq _ region nameGen n files _ hinj hlen hneU,
      countStatus_append, countStatus_procEntries, countStatus_waitEntries]
    simp
  · intro h0
    exact hne (List.length_eq_zero.mp h0)

/-- Witness for C9: a 2-placeholder job uploaded 2 files — the job record
reads `completed` while both cluster entries are still `processing`. -/
theorem c9_witness :
    (∃ j, lookupKey (upload_collectinfo_files
        (create_multi_tier_health_check [] []
          "acme" "[\x7b\"region_name\": \"east\", \"file_count\": 2\x7d]" [("east", 2)] 1700).1
        (create_multi_tier_health_check [] []
          "acme" "[\x7b\"region_name\": \"east\", \"file_count\": 2\x7d]" [("east", 2)] 1700).2.1
        (healthCheckId 1700 "acme") "east" ["a.tgz", "b.tgz"]
        (fun i => "cluster_1700_" ++ toString (i + 1))).1
          (healthCheckId 1700 "acme") = some j ∧ j.status = "completed") ∧
    countStatus ((upload_collectinfo_files
        (create_multi_tier_health_check [] []
          "acme" "[\x7b\"region_name\": \"east\", \"file_count\": 2\x7d]" [("east", 2)] 1700).1
        (create_multi_tier_health_check [] []
          "acme" "[\x7b\"region_name\": \"east\", \"file_count\": 2\x7d]" [("east", 2)] 1700).2.1
        (healthCheckId 1700 "acme") "east" ["a.tgz", "b.tgz"]
        (fun i => "cluster_1700_" ++ toString (i + 1))).2.1)
      (healthCheckId 1700 "acme") "processing" = 2 := by
  have h := c9_completed_while_processing "acme" "east"
    "[\x7b\"region_name\": \"east\", \"file_count\": 2\x7d]" 1700 2 ["a.tgz", "b.tgz"]
    (fun i => "cluster_1700_" ++ toString (i + 1)) (by decide) (by decide) (by decide)
    (by decide) (by decide) (by decide)
  exact ⟨h.2.2.1, h.2.2.2.1⟩

/-! ## C7 — cascading delete -/

/-- C7: deleting a stored job removes every one of its cluster-result
records and then the parent record — the removal trace ends with the parent
removal, everything before it is a child removal, and every child's removal
is issued before the parent's; afterwards the job detail fetch and every
one of its cluster-result fetches return not-found. -/
theorem c7_cascading_delete
    (jobs : JobStore) (clusters : ClusterStore) (id : String) (j : JobRecord)
    (hj : lookupKey jobs id = some j) :
    (delete_health_check jobs clusters id).found = true ∧
    lookupKey (delete_health_check jobs clusters id).jobs id = none ∧
    get_health_check_details (delete_health_check jobs clusters id).jobs
      (delete_health_check jobs clusters id).clusters id = none ∧
    (∀ k r, lookupKey clusters k = some r → r.health_check_id = id →
      lookupKey (delete_health_check jobs clusters id).clusters k = none ∧
      get_cluster_details (delete_health_check jobs clusters id).clusters id k = none) ∧
    (delete_health_check jobs clusters id).trace.getLast? = some (.jobRemove id) ∧
    (∀ op ∈ (delete_health_check jobs clusters id).trace.dropLast,
      ∃ k, op = DelOp.clusterRemove k) ∧
    (∀ k r, lookupKey clusters k = some r → r.health_check_id = id →
      DelOp.clusterRemove k ∈ (delete_health_check jobs clusters id).trace.dropLast) := by
  have hdel : delete_health_check jobs clusters id =
      { jobs := removeKey jobs id,
        clusters := ((clusters.filter (fun e => e.2.health_check_id == id)).map
          (·.1)).foldl removeKey clusters,
        trace := ((clusters.filter (fun e => e.2.health_check_id == id)).map
          (·.1)).map DelOp.clusterRemove ++ [DelOp.jobRemove id],
        found := true } := by
    unfold delete_health_check
    rw [hj]
  have hchild : ∀ k r, lookupKey clusters k = some r → r.health_check_id = id →
      k ∈ (clusters.filter (fun e => e.2.health_check_id == id)).map (·.1) := by
    intro k r hk hr
    apply List.mem_map.mpr
    exact ⟨(k, r), List.mem_filter.mpr ⟨lookup_some_mem hk, by simpa using hr⟩, rfl⟩
  rw [hdel]
  refine ⟨rfl, lookup_removeKey_self jobs id, ?_, ?_, ?_, ?_, ?_⟩
  · unfold get_health_check_details
    rw [lookup_removeKey_self jobs id]
  · intro k r hk hr
    have hnone := lookup_foldl_removeKey_mem _ clusters (hchild k r hk hr)
    refine ⟨hnone, ?_⟩
    unfold get_cluster_details
    rw [hnone]
  · exact List.getLast?_concat _
  · intro op hop
    rw [List.dropLast_concat] at hop
    obtain ⟨k, _, rfl⟩ := List.mem_map.mp hop
    exact ⟨k, rfl⟩
  · intro k r hk hr
    rw [List.dropLast_concat]
    exact List.mem_map.mpr ⟨k, hchild k r hk hr, rfl⟩

/-- Witness for C7 at a concrete store: after the delete, the job fetch and
the (only) associated cluster fetch are both not-found, while the trace
deletes the child first and the parent last. -/
theorem c7_witness :
    lookupKey (delete_health_check [("hc1", jobFixture)]
      [("k1", clusterFixture1), ("k2", clusterFixture2)] "hc1").jobs "hc1" = none ∧
    lookupKey (delete_health_check [("hc1", jobFixture)]
      [("k1", clusterFixture1), ("k2", clusterFixture2)] "hc1").clusters "k1" = none ∧
    get_health_check_details (delete_health_check [("hc1", jobFixture)]
      [("k1", clusterFixture1), ("k2", clusterFixture2)] "hc1").jobs
      (delete_health_check [("hc1", jobFixture)]
      [("k1", clusterFixture1), ("k2", clusterFixture2)] "hc1").clusters "hc1" = none ∧
    get_cluster_details (delete_health_check [("hc1", jobFixture)]
      [("k1", clusterFixture1), ("k2", clusterFixture2)] "hc1").clusters "hc1" "k1" = none ∧
    (delete_health_check [("hc1", jobFixture)]
      [("k1", clusterFixture1), ("k2", clusterFixture2)] "hc1").trace.getLast? =
      some (.jobRemove "hc1") := by
  have h := c7_cascading_delete [("hc1", jobFixture)]
    [("k1", clusterFixture1), ("k2", clusterFixture2)] "hc1" jobFixture (by decide)
  have hk1 := h.2.2.2.1 "k1" clusterFixture1 (by decide) (by decide)
  exact ⟨h.2.1, hk1.1, h.2.2.1, hk1.2, h.2.2.2.2.1⟩

end AsHealth
